import Mathlib

/-!
Verification development for the OpenAPI 3.0 → Swagger 2.0 converter
(`convert_openapi3_to_swagger2.py`).

The converter is a pure document-to-document transformation over parsed
YAML trees.  We embed the document model as a mutual inductive family
`Yaml` / `YamlList` / `YamlDict`: mappings are insertion-ordered
association lists, matching Python's ordered dictionaries.  Each Python
function is translated into a Lean function of the same name over this
model.  Python dictionary assignment `d[k] = v` (replace the value in
place when the key is present, append otherwise) is `YamlDict.insert`;
`d.get(k)` is `YamlDict.lookup` combined with `Option.getD`; Python
truthiness is `truthy`.

Places where the Python code would raise an exception on a malformed
tree (for example calling `.get` on a non-mapping, or `.replace` on a
non-string `$ref` value) are total here: the offending value is passed
through unchanged or treated as an empty mapping.  Such inputs abort the
whole conversion in Python (spec §7), and no theorem below relies on the
behaviour at such an input.
-/

mutual
inductive Yaml where
  | null : Yaml
  | bool (b : Bool) : Yaml
  | num (n : Int) : Yaml
  | str (s : String) : Yaml
  | arr (items : YamlList) : Yaml
  | obj (entries : YamlDict) : Yaml

inductive YamlList where
  | nil : YamlList
  | cons (y : Yaml) (rest : YamlList) : YamlList

inductive YamlDict where
  | nil : YamlDict
  | cons (k : String) (v : Yaml) (rest : YamlDict) : YamlDict
end

/-- Lookup of a key in an ordered mapping (Python `d[k]` / `d.get(k)`). -/
def YamlDict.lookup : YamlDict → String → Option Yaml
  | .nil, _ => none
  | .cons k v rest, key => if k = key then some v else rest.lookup key

/-- Python dictionary assignment `d[k] = v`: replace the value in place when
the key is present, append at the end otherwise. -/
def YamlDict.insert (key : String) (val : Yaml) : YamlDict → YamlDict
  | .nil => .cons key val .nil
  | .cons k v rest =>
    if k = key then .cons key val rest else .cons k v (rest.insert key val)

/-- Python `d.pop(k, None)`: remove the entry with the given key. -/
def YamlDict.erase (key : String) : YamlDict → YamlDict
  | .nil => .nil
  | .cons k v rest => if k = key then rest else .cons k v (rest.erase key)

/-- Python `d.setdefault(k, v)`: insert only when the key is absent. -/
def YamlDict.setDefault (d : YamlDict) (key : String) (val : Yaml) : YamlDict :=
  if (d.lookup key).isSome then d else d.insert key val

/-- The list of keys of a mapping, in insertion order. -/
def YamlDict.keys : YamlDict → List String
  | .nil => []
  | .cons k _ rest => k :: rest.keys

/-- Key-presence test (Python `k in d`). -/
def YamlDict.hasKey : YamlDict → String → Bool
  | .nil, _ => false
  | .cons k _ rest, key => k = key || rest.hasKey key

/-- A mapping is well formed when its keys are distinct; Python dictionaries
always satisfy this. -/
abbrev keysNodup (d : YamlDict) : Prop := d.keys.Nodup

/-- Conditional assignment used for the `if key in src: dst[key] = src[key]`
loops of the converter: insert when the optional value is present. -/
def optInsert (d : YamlDict) (key : String) (o : Option Yaml) : YamlDict :=
  match o with
  | some v => d.insert key v
  | none => d

/-- View a node as a mapping.  The converter only reaches this on values the
source code treats as `Dict`; on any other node Python would raise, and we
return the empty mapping instead. -/
def Yaml.asObj : Yaml → YamlDict
  | .obj d => d
  | _ => .nil

/-- View a node as a sequence (same caveat as `Yaml.asObj`). -/
def Yaml.asArr : Yaml → YamlList
  | .arr l => l
  | _ => .nil

/-- Python `node.get(k)` on a value that the source treats as a mapping. -/
def Yaml.get (y : Yaml) (key : String) : Option Yaml := y.asObj.lookup key

/-- Whether a node is a string scalar. -/
def Yaml.isString : Yaml → Bool
  | .str _ => true
  | _ => false

/-- Python truthiness of a parsed YAML value: `None`, `False`, `0`, the empty
string, the empty list and the empty mapping are falsy. -/
def truthy : Yaml → Bool
  | .null => false
  | .bool b => b
  | .num n => n ≠ 0
  | .str s => s ≠ ""
  | .arr .nil => false
  | .arr (.cons _ _) => true
  | .obj .nil => false
  | .obj (.cons _ _ _) => true

/-- Truthiness of `d.get(k)` (Python `.get` returns falsy `None` when the key
is absent). -/
def truthyO : Option Yaml → Bool
  | some v => truthy v
  | none => false

/-- Test `d.get(k) == "s"` for a string constant `s`. -/
def isStr (o : Option Yaml) (s : String) : Bool :=
  match o with
  | some (.str t) => t = s
  | _ => false

/-- Boolean test that `p` is a leading segment of `s` (Python
`s.startswith(p)` at the character-list level). -/
def prefOf : List Char → List Char → Bool
  | [], _ => true
  | _ :: _, [] => false
  | a :: p, b :: s => a = b && prefOf p s

/-- Python `s.startswith(p)` on strings. -/
def strStartsWith (s p : String) : Bool := prefOf p.data s.data

/-- Boolean test that `p` occurs as a contiguous segment of `s`. -/
def hasSeg (p : List Char) : List Char → Bool
  | [] => prefOf p []
  | c :: rest => prefOf p (c :: rest) || hasSeg p rest

/-- Python `s.replace(p, q)`: replace every non-overlapping occurrence of `p`
in `s` by `q`, scanning left to right.  The extra fuel argument (instantiated
with the length of the scanned list, a strict upper bound on the number of
steps) keeps the recursion structural; the patterns used by the converter are
all non-empty, and the guard on empty patterns makes the definition total. -/
def replaceAllFuel (p q : List Char) : Nat → List Char → List Char
  | _, [] => []
  | 0, s => s
  | fuel + 1, c :: rest =>
    if prefOf p (c :: rest) && !p.isEmpty then
      q ++ replaceAllFuel p q fuel ((c :: rest).drop p.length)
    else
      c :: replaceAllFuel p q fuel rest

/-- Python `s.replace(p, q)` on strings. -/
def strReplace (s p q : String) : String :=
  ⟨replaceAllFuel p.data q.data s.data.length s.data⟩

/-- Reference Rewriter (`convert_ref`): rewrite the container segment of a
reference string through the fixed five-entry table; strings starting with
none of the five recognized forms pass through unchanged. -/
def convert_ref (ref : String) : String :=
  if strStartsWith ref "#/components/schemas/" then
    strReplace ref "#/components/schemas/" "#/definitions/"
  else if strStartsWith ref "#/components/parameters/" then
    strReplace ref "#/components/parameters/" "#/parameters/"
  else if strStartsWith ref "#/components/responses/" then
    strReplace ref "#/components/responses/" "#/responses/"
  else if strStartsWith ref "#/components/requestBodies/" then
    strReplace ref "#/components/requestBodies/" "#/x-requestBodies/"
  else if strStartsWith ref "#/components/securitySchemes/" then
    strReplace ref "#/components/securitySchemes/" "#/securityDefinitions/"
  else ref

/-- Rewrite a `$ref` value.  The source calls `convert_ref` directly, whose
type is string to string; a non-string value would raise in Python and is
passed through unchanged here. -/
def refYaml : Yaml → Yaml
  | .str s => .str (convert_ref s)
  | v => v

mutual
/-- Schema Transformer (`convert_schema`): recursively rewrite a schema node.
Sequences are mapped element-wise, non-mapping scalars return unchanged, and
mapping nodes are rebuilt key by key through `convert_schema_step`, mirroring
the `if`/`elif` chain of the source. -/
def convert_schema : Yaml → Yaml
  | .arr items => .arr (convert_schema_list items)
  | .obj entries => .obj (convert_schema_entries .nil entries)
  | y => y

/-- Element-wise transformation of a schema sequence. -/
def convert_schema_list : YamlList → YamlList
  | .nil => .nil
  | .cons y rest => .cons (convert_schema y) (convert_schema_list rest)

/-- The `for key, value in schema.items()` loop of `convert_schema`,
accumulating into the `converted` ordered mapping.  Each iteration is the
`if`/`elif` chain of lines 72-105 of the source, written inline so that the
recursion stays structural; `convert_schema_step` below restates one
iteration standalone, with a definitional equation connecting the two. -/
def convert_schema_entries : YamlDict → YamlDict → YamlDict
  | acc, .nil => acc
  | acc, .cons key value rest =>
    convert_schema_entries
      (if key = "$ref" then acc.insert key (refYaml value)
       else if key = "nullable" then
         (if truthy value then acc.insert "x-nullable" (.bool true) else acc)
       else if key = "deprecated" then acc.insert "x-deprecated" value
       else if key = "discriminator" then acc.insert "x-discriminator" value
       else if key = "example" then acc.insert "example" value
       else if key = "examples" then acc.insert "x-examples" value
       else if key = "allOf" ∨ key = "anyOf" ∨ key = "oneOf" ∨ key = "not" then
         acc.insert ("x-" ++ key) (convert_schema value)
       else if key = "items" ∨ key = "additionalProperties" then
         acc.insert key (convert_schema value)
       else if key = "properties" ∨ key = "patternProperties" then
         match value with
         | .obj props => acc.insert key (.obj (convert_props .nil props))
         | _ => acc.insert key value
       else if key = "xml" then acc.insert key value
       else acc.insert key (convert_schema value))
      rest

/-- The property-map rebuilding loops of `convert_schema` (`properties` and
`patternProperties`): names unchanged, each value recursively transformed. -/
def convert_props : YamlDict → YamlDict → YamlDict
  | acc, .nil => acc
  | acc, .cons name s rest => convert_props (acc.insert name (convert_schema s)) rest
end

/-- One iteration of the `convert_schema` key loop: the `if`/`elif` chain of
lines 72-105 of the source, restated standalone for the proofs below. -/
def convert_schema_step (acc : YamlDict) (key : String) (value : Yaml) : YamlDict :=
  if key = "$ref" then acc.insert key (refYaml value)
  else if key = "nullable" then
    (if truthy value then acc.insert "x-nullable" (.bool true) else acc)
  else if key = "deprecated" then acc.insert "x-deprecated" value
  else if key = "discriminator" then acc.insert "x-discriminator" value
  else if key = "example" then acc.insert "example" value
  else if key = "examples" then acc.insert "x-examples" value
  else if key = "allOf" ∨ key = "anyOf" ∨ key = "oneOf" ∨ key = "not" then
    acc.insert ("x-" ++ key) (convert_schema value)
  else if key = "items" ∨ key = "additionalProperties" then
    acc.insert key (convert_schema value)
  else if key = "properties" ∨ key = "patternProperties" then
    match value with
    | .obj props => acc.insert key (.obj (convert_props .nil props))
    | _ => acc.insert key value
  else if key = "xml" then acc.insert key value
  else acc.insert key (convert_schema value)

/-- The allow-list `PARAMETER_PRIMITIVE_FIELDS`, in source order.  The source
stores it as a Python `set`, whose iteration order is unspecified; no value
fact proved below depends on the chosen order. -/
def parameterPrimitiveFields : List String :=
  ["type", "format", "default", "maximum", "exclusiveMaximum", "minimum",
   "exclusiveMinimum", "maxLength", "minLength", "pattern", "maxItems",
   "minItems", "uniqueItems", "multipleOf", "enum", "collectionFormat",
   "x-nullable", "x-deprecated", "x-example", "x-examples"]

/-- The `for field in PARAMETER_PRIMITIVE_FIELDS` copy loop of
`schema_to_parameter_fields`. -/
def copyFieldList (result : YamlDict) (schema : YamlDict) : List String → YamlDict
  | [] => result
  | f :: rest => copyFieldList (optInsert result f (schema.lookup f)) schema rest

/-- The vendor-extension pass of `schema_to_parameter_fields`: copy every
`x-` key of the schema that the allow-list pass has not already captured. -/
def xCopyIfAbsent (result : YamlDict) : YamlDict → YamlDict
  | .nil => result
  | .cons k v rest =>
    xCopyIfAbsent
      (if strStartsWith k "x-" && !(result.hasKey k) then result.insert k v else result)
      rest

mutual
/-- Computable size of a node, used as a fuel bound below. -/
def Yaml.size : Yaml → Nat
  | .arr l => l.size + 1
  | .obj d => d.size + 1
  | _ => 1

/-- Computable size of a sequence. -/
def YamlList.size : YamlList → Nat
  | .nil => 1
  | .cons y rest => y.size + rest.size + 1

/-- Computable size of a mapping. -/
def YamlDict.size : YamlDict → Nat
  | .nil => 1
  | .cons _ v rest => v.size + rest.size + 1
end

/-- Parameter Extractor (`schema_to_parameter_fields`) with explicit fuel for
the recursion into `items`.  The fuel is instantiated with the size of the
schema, a strict upper bound on the nesting depth, so the zero case is never
reached on the wrapper below. -/
def schema_to_parameter_fields_fuel : Nat → YamlDict → YamlDict
  | 0, _ => .nil
  | fuel + 1, schema =>
    let result : YamlDict := .nil
    let result :=
      if isStr (schema.lookup "type") "array" then
        match schema.lookup "items" with
        | some (.obj items) =>
          result.insert "items" (.obj (schema_to_parameter_fields_fuel fuel items))
        | _ => result
      else result
    let result := copyFieldList result schema parameterPrimitiveFields
    xCopyIfAbsent result schema

/-- Parameter Extractor (`schema_to_parameter_fields`): flatten an already
transformed schema into the allow-listed primitive-constraint fields. -/
def schema_to_parameter_fields (schema : YamlDict) : YamlDict :=
  schema_to_parameter_fields_fuel schema.size schema

/-- Merge loop `for key, value in fields.items(): new_param[key] = value`. -/
def dictUpdate (d : YamlDict) : YamlDict → YamlDict
  | .nil => d
  | .cons k v rest => dictUpdate (d.insert k v) rest

/-- Vendor-extension passthrough loop (`for key in node: if key.startswith("x-")`),
shared by the parameter, request-body, header, response and document
converters. -/
def copyExtensions (acc : YamlDict) : YamlDict → YamlDict
  | .nil => acc
  | .cons k v rest =>
    copyExtensions (if strStartsWith k "x-" then acc.insert k v else acc) rest

/-- Parameter Converter (`convert_parameter`). -/
def convert_parameter (parameter : YamlDict) : YamlDict :=
  let np : YamlDict := .nil
  let np := optInsert np "name" (parameter.lookup "name")
  let np := optInsert np "in" (parameter.lookup "in")
  let np := optInsert np "description" (parameter.lookup "description")
  let np := optInsert np "required" (parameter.lookup "required")
  let np := optInsert np "x-deprecated" (parameter.lookup "deprecated")
  let np := optInsert np "allowEmptyValue" (parameter.lookup "allowEmptyValue")
  if isStr (parameter.lookup "in") "body" then
    let schema := convert_schema ((parameter.lookup "schema").getD (.obj .nil))
    let np := if truthy schema then np.insert "schema" schema else np
    copyExtensions np parameter
  else
    let np :=
      if truthyO (parameter.lookup "schema") then
        let cs := convert_schema ((parameter.lookup "schema").getD .null)
        let fields := schema_to_parameter_fields cs.asObj
        let np := dictUpdate np fields
        if (cs.get "example").isSome && !(np.hasKey "x-example") then
          np.insert "x-example" ((cs.get "example").getD .null)
        else np
      else np
    let np :=
      if isStr (parameter.lookup "style") "form" && truthyO (parameter.lookup "explode") then
        np.insert "collectionFormat" (.str "multi")
      else if isStr (parameter.lookup "style") "form" then
        np.insert "collectionFormat" (.str "csv")
      else np
    let np :=
      if isStr (parameter.lookup "style") "spaceDelimited" then
        np.insert "collectionFormat" (.str "ssv")
      else np
    let np :=
      if isStr (parameter.lookup "style") "pipeDelimited" then
        np.insert "collectionFormat" (.str "pipes")
      else np
    copyExtensions np parameter

/-- The `examples` unwrapping loop of `convert_request_body`: per-entry
`value` sub-field unwrapped when present, raw entry otherwise. -/
def extractExamples (acc : YamlDict) : YamlDict → YamlDict
  | .nil => acc
  | .cons name payload rest =>
    let unwrapped :=
      match payload with
      | .obj pd => match pd.lookup "value" with
        | some v => v
        | none => payload
      | _ => payload
    extractExamples (acc.insert name unwrapped) rest

/-- Request Body Converter (`convert_request_body`): returns the synthesized
body parameter and the list of consumed media types.  A falsy `content`
returns the empty parameter and no media types; otherwise the first-declared
media type is representative. -/
def convert_request_body (request_body : YamlDict) : YamlDict × List String :=
  match (request_body.lookup "content").getD (.obj .nil) with
  | .obj (.cons media_type media_obj _) =>
    let consumes := [media_type]
    let bp : YamlDict := .nil
    let bp := bp.insert "name" (.str "body")
    let bp := bp.insert "in" (.str "body")
    let bp :=
      if truthyO (request_body.lookup "description") then
        bp.insert "description" ((request_body.lookup "description").getD .null)
      else bp
    let bp := bp.insert "required" ((request_body.lookup "required").getD (.bool false))
    let bp :=
      if truthyO (media_obj.get "schema") then
        bp.insert "schema" (convert_schema ((media_obj.get "schema").getD .null))
      else bp
    let bp :=
      match media_obj.get "example" with
      | some .null => bp
      | some v => bp.insert "x-example" v
      | none => bp
    let bp :=
      match media_obj.get "examples" with
      | some (.obj exs) =>
        let extracted := extractExamples .nil exs
        if truthy (.obj extracted) then bp.insert "x-examples" (.obj extracted) else bp
      | _ => bp
    (copyExtensions bp request_body, consumes)
  | _ => (.nil, [])

/-- Header Converter (`convert_header`). -/
def convert_header (header : YamlDict) : YamlDict :=
  let nh : YamlDict := .nil
  let nh := optInsert nh "description" (header.lookup "description")
  let nh :=
    if truthyO (header.lookup "schema") then
      let cs := convert_schema ((header.lookup "schema").getD .null)
      dictUpdate nh (schema_to_parameter_fields cs.asObj)
    else nh
  copyExtensions nh header

/-- The header-map rebuilding loop of `convert_responses`. -/
def convertHeaderMap (acc : YamlDict) : YamlDict → YamlDict
  | .nil => acc
  | .cons name header rest =>
    convertHeaderMap (acc.insert name (.obj (convert_header header.asObj))) rest

/-- The `examples` collapsing loop of `convert_responses`: every named entry
is unwrapped like in `convert_request_body` but stored under the single
representative media-type key, so the last entry wins. -/
def collapseExamples (dest : YamlDict) (media_type : String) : YamlDict → YamlDict
  | .nil => dest
  | .cons _ payload rest =>
    let unwrapped :=
      match payload with
      | .obj pd => match pd.lookup "value" with
        | some v => v
        | none => payload
      | _ => payload
    collapseExamples (dest.insert media_type unwrapped) media_type rest

/-- The scalar-`example` handling of `convert_responses`: a present,
non-`None` example is stored under `examples[media_type]` (creating the
`examples` mapping on demand, like Python's `setdefault`). -/
def response_example_single (nr : YamlDict) (media_type : String) (o : Option Yaml) : YamlDict :=
  match o with
  | some .null => nr
  | some v =>
    let dest := ((nr.lookup "examples").getD (.obj .nil)).asObj
    nr.insert "examples" (.obj (dest.insert media_type v))
  | none => nr

/-- The `examples`-mapping handling of `convert_responses`: when the media
object carries an `examples` mapping, its entries are collapsed onto the
single representative media-type key. -/
def response_examples_collapse (nr : YamlDict) (media_type : String) (o : Option Yaml) :
    YamlDict :=
  match o with
  | some (.obj exs) =>
    let dest := ((nr.lookup "examples").getD (.obj .nil)).asObj
    nr.insert "examples" (.obj (collapseExamples dest media_type exs))
  | _ => nr

/-- Conversion of one response object (the body of the `for status, response`
loop of `convert_responses`): returns the new response and the list of media
types it appends to `produces`. -/
def convert_response (response : YamlDict) : YamlDict × List String :=
  let nr : YamlDict := .nil
  let nr := nr.insert "description" ((response.lookup "description").getD (.str ""))
  let nr :=
    if truthyO (response.lookup "headers") then
      let header_map := convertHeaderMap .nil ((response.lookup "headers").getD .null).asObj
      if truthy (.obj header_map) then nr.insert "headers" (.obj header_map) else nr
    else nr
  match (response.lookup "content").getD (.obj .nil) with
  | .obj (.cons media_type media_obj _) =>
    let produces := [media_type]
    let nr :=
      if media_type = "application/pdf" then
        nr.insert "schema" (.obj (.cons "type" (.str "file") .nil))
      else if truthyO (media_obj.get "schema") then
        nr.insert "schema" (convert_schema ((media_obj.get "schema").getD .null))
      else nr
    let nr := response_example_single nr media_type (media_obj.get "example")
    let nr := response_examples_collapse nr media_type (media_obj.get "examples")
    (copyExtensions nr response, produces)
  | _ => (copyExtensions nr response, [])

/-- Responses Converter (`convert_responses`), iterating the status-keyed
response map in order while accumulating the produced media types. -/
def convert_responses_aux (acc : YamlDict) (produces : List String) :
    YamlDict → YamlDict × List String
  | .nil => (acc, produces)
  | .cons status response rest =>
    let rp := convert_response response.asObj
    convert_responses_aux (acc.insert status (.obj rp.1)) (produces ++ rp.2) rest

/-- Responses Converter (`convert_responses`). -/
def convert_responses (responses : YamlDict) : YamlDict × List String :=
  convert_responses_aux .nil [] responses

/-- Python `dict.fromkeys`: deduplicate keeping the first occurrence. -/
def pyDedupAux (seen : List String) : List String → List String
  | [] => []
  | a :: l =>
    if seen.contains a then pyDedupAux seen l
    else a :: pyDedupAux (a :: seen) l

/-- Python `dict.fromkeys`: deduplicate keeping first occurrences. -/
def pyDedup (l : List String) : List String := pyDedupAux [] l

/-- Lexicographic comparison of character lists by code point — the order
Python's `sorted` uses on strings. -/
def lexLe : List Char → List Char → Bool
  | [], _ => true
  | _ :: _, [] => false
  | a :: s, b :: t =>
    if a.toNat < b.toNat then true
    else if a.toNat = b.toNat then lexLe s t else false

/-- Lexicographic (code-point) comparison of strings. -/
def strLe (a b : String) : Bool := lexLe a.data b.data

/-- The lexicographic (code-point) order on strings as a relation. -/
def strLeProp (a b : String) : Prop := strLe a b = true

instance : DecidableRel strLeProp :=
  fun a b => inferInstanceAs (Decidable (strLe a b = true))

/-- Lexicographic sort of a list of strings (insertion sort).  On
duplicate-free lists — the only use here, after `pyDedup` — every correct
sort produces the same list as Python's `sorted`. -/
def pySorted (l : List String) : List String := List.insertionSort strLeProp l

/-- Python `sorted(dict.fromkeys(l))` from `convert_operation`. -/
def sortedUnique (l : List String) : List String := pySorted (pyDedup l)

/-- Build a YAML sequence of string scalars. -/
def ofStrings : List String → YamlList
  | [] => .nil
  | s :: rest => .cons (.str s) (ofStrings rest)

/-- The fixed-key copy loop of `convert_operation` (lines 266-278), including
the redundant second copy of `deprecated`. -/
def operation_base (operation : YamlDict) : YamlDict :=
  let co : YamlDict := .nil
  let co := optInsert co "tags" (operation.lookup "tags")
  let co := optInsert co "summary" (operation.lookup "summary")
  let co := optInsert co "description" (operation.lookup "description")
  let co := optInsert co "operationId" (operation.lookup "operationId")
  let co := optInsert co "deprecated" (operation.lookup "deprecated")
  let co := optInsert co "security" (operation.lookup "security")
  let co := optInsert co "externalDocs" (operation.lookup "externalDocs")
  optInsert co "deprecated" (operation.lookup "deprecated")

/-- Conversion of a declared parameter list. -/
def convert_parameter_list : YamlList → YamlList
  | .nil => .nil
  | .cons p rest => .cons (.obj (convert_parameter p.asObj)) (convert_parameter_list rest)

/-- Appending at the end of a sequence (Python `list.append`). -/
def YamlList.push : YamlList → Yaml → YamlList
  | .nil, y => .cons y .nil
  | .cons a rest, y => .cons a (rest.push y)

/-- The parameter list of a converted operation: the declared parameters
followed by the synthesized body parameter when it is non-empty. -/
def operation_params (operation : YamlDict) : YamlList :=
  let params := convert_parameter_list ((operation.lookup "parameters").getD (.arr .nil)).asArr
  match operation.lookup "requestBody" with
  | some (.obj rb) =>
    let bp := (convert_request_body rb).1
    if truthy (.obj bp) then params.push (.obj bp) else params
  | _ => params

/-- The consumed media types of an operation: contributed only by a
`requestBody` that is a mapping. -/
def operation_consumes (operation : YamlDict) : List String :=
  match operation.lookup "requestBody" with
  | some (.obj rb) => (convert_request_body rb).2
  | _ => []

/-- The final key loop of `convert_operation`: vendor extensions pass
through, and the source-only `callbacks` / `servers` keys are relocated to
`x-callbacks` / `x-servers`. -/
def operation_ext_loop (acc : YamlDict) : YamlDict → YamlDict
  | .nil => acc
  | .cons k v rest =>
    let acc := if strStartsWith k "x-" then acc.insert k v else acc
    let acc := if k = "callbacks" then acc.insert "x-callbacks" v else acc
    let acc := if k = "servers" then acc.insert "x-servers" v else acc
    operation_ext_loop acc rest

/-- Operation Converter (`convert_operation`): returns the converted
operation together with the accumulated consumed and produced media types. -/
def convert_operation (operation : YamlDict) : YamlDict × List String × List String :=
  let co := operation_base operation
  let params := operation_params operation
  let co :=
    match params with
    | .nil => co
    | ps => co.insert "parameters" (.arr ps)
  let consumes := operation_consumes operation
  let rp := convert_responses ((operation.lookup "responses").getD (.obj .nil)).asObj
  let co := co.insert "responses" (.obj rp.1)
  let co :=
    match consumes with
    | [] => co
    | l => co.insert "consumes" (.arr (ofStrings (sortedUnique l)))
  let co :=
    match rp.2 with
    | [] => co
    | l => co.insert "produces" (.arr (ofStrings (sortedUnique l)))
  (operation_ext_loop co operation, consumes, rp.2)

/-- The key loop of `convert_path_item` (lines 323-327): vendor extensions
pass through and a path-level `servers` override is preserved as
`x-servers`. -/
def path_item_ext_loop (acc : YamlDict) : YamlDict → YamlDict
  | .nil => acc
  | .cons k v rest =>
    let acc := if strStartsWith k "x-" then acc.insert k v else acc
    let acc := if k = "servers" then acc.insert "x-servers" v else acc
    path_item_ext_loop acc rest

/-- One conditional method conversion of `convert_path_item`. -/
def convertMethod (path_item : YamlDict) (acc : YamlDict) (method : String) : YamlDict :=
  match path_item.lookup method with
  | some operation => acc.insert method (.obj (convert_operation operation.asObj).1)
  | none => acc

/-- Path Item Converter (`convert_path_item`). -/
def convert_path_item (path_item : YamlDict) : YamlDict :=
  let cp : YamlDict := .nil
  let cp :=
    if path_item.hasKey "parameters" then
      cp.insert "parameters"
        (.arr (convert_parameter_list ((path_item.lookup "parameters").getD (.arr .nil)).asArr))
    else cp
  let cp := convertMethod path_item cp "get"
  let cp := convertMethod path_item cp "put"
  let cp := convertMethod path_item cp "post"
  let cp := convertMethod path_item cp "delete"
  let cp := convertMethod path_item cp "options"
  let cp := convertMethod path_item cp "head"
  let cp := convertMethod path_item cp "patch"
  path_item_ext_loop cp path_item

/-- The result of splitting a URL: scheme, network location and path. -/
structure UrlParts where
  scheme : String
  netloc : String
  path : String

/-- Characters allowed in a URL scheme after the leading letter. -/
def schemeChar (c : Char) : Bool := c.isAlphanum || c = '+' || c = '-' || c = '.'

/-- CPython's `urllib.parse.uses_params`: the schemes for which `urlparse`
splits `;params` off the last path segment.  Includes the empty scheme. -/
def usesParams : List String :=
  ["", "ftp", "hdl", "prospero", "http", "imap", "https", "shttp", "rtsp",
   "rtspu", "sip", "sips", "mms", "sftp", "tel"]

/-- The `'/' in url` branch of CPython's `_splitparams`: drop everything from
the first `;` at or after the last `/` (`url[:url.find(';', url.rfind('/'))]`,
the whole string when there is no such `;`). -/
def stripParamsLastSeg : List Char → List Char
  | [] => []
  | c :: rest =>
    if c == '/' && !(rest.contains '/') then c :: rest.takeWhile (· ≠ ';')
    else c :: stripParamsLastSeg rest

/-- CPython's `_splitparams`, keeping only the path part: with a `/` in the
path the params are cut from the last segment, otherwise from the first `;`
of the whole path. -/
def splitParams (p : List Char) : List Char :=
  if p.contains '/' then stripParamsLastSeg p else p.takeWhile (· ≠ ';')

/-- Model of `urllib.parse.urlparse` restricted to the `scheme`, `netloc` and
`path` components — the only components `parse_server` reads.  Following
CPython: an initial run of scheme characters before a colon (starting with a
letter) is the scheme, lower-cased; after `//` the network location extends
to the next `/`, `?` or `#`; the path is what remains before any fragment
(`#`) or query (`?`) marker; finally — the step `urlparse` adds on top of
`urlsplit` — for a scheme in `uses_params`, any `;params` suffix of the last
path segment is split off the path. -/
def urlparse (url : String) : UrlParts :=
  let s := url.data
  let pre := s.takeWhile (· ≠ ':')
  let hasScheme :=
    decide (pre.length < s.length) && !pre.isEmpty &&
      (pre.headD 'a').isAlpha && pre.all schemeChar
  let scheme := if hasScheme then pre.map Char.toLower else []
  let rest := if hasScheme then s.drop (pre.length + 1) else s
  let hasNetloc := prefOf ['/', '/'] rest
  let afterSlashes := rest.drop 2
  let netloc :=
    if hasNetloc then afterSlashes.takeWhile (fun c => ¬ (c = '/' ∨ c = '?' ∨ c = '#')) else []
  let rest :=
    if hasNetloc then afterSlashes.drop netloc.length else rest
  let path := (rest.takeWhile (· ≠ '#')).takeWhile (· ≠ '?')
  let path :=
    if usesParams.contains ⟨scheme⟩ && path.contains ';' then splitParams path else path
  { scheme := ⟨scheme⟩, netloc := ⟨netloc⟩, path := ⟨path⟩ }

/-- Server/URL Splitter (`parse_server`): returns `(host, base_path, schemes)`.
The `url` field defaults to `"/"`; a non-string `url` would make Python's
`urlparse` raise and is mapped to the empty string here. -/
def parse_server (server : YamlDict) : String × String × List String :=
  let url :=
    match server.lookup "url" with
    | some (.str u) => u
    | some _ => ""
    | none => "/"
  let parsed := urlparse url
  let schemes := if parsed.scheme ≠ "" then [parsed.scheme] else []
  let host := if parsed.netloc ≠ "" then parsed.netloc else ""
  let base_path := if parsed.path ≠ "" then parsed.path else ""
  (host, base_path, schemes)

/-- The per-scheme body of the `securitySchemes` loop of
`convert_components` (lines 370-382). -/
def convert_security_scheme (scheme : YamlDict) : YamlDict :=
  let sc := scheme
  let sc :=
    if isStr (sc.lookup "type") "http" then
      if isStr (sc.lookup "scheme") "basic" then
        ((sc.insert "type" (.str "basic")).erase "scheme")
      else if isStr (sc.lookup "scheme") "bearer" then
        let sc := sc.insert "type" (.str "apiKey")
        let sc := sc.insert "name" ((sc.lookup "name").getD (.str "Authorization"))
        let sc := sc.insert "in" ((sc.lookup "in").getD (.str "header"))
        let sc := sc.insert "x-original-http-scheme" (.str "bearer")
        sc.erase "scheme"
      else sc
    else sc
  sc.setDefault "x-ms-visibility" (.str "important")

/-- The `definitions` rebuilding loop of `convert_components`. -/
def convertSchemasMap (acc : YamlDict) : YamlDict → YamlDict
  | .nil => acc
  | .cons name schema rest =>
    convertSchemasMap (acc.insert name (convert_schema schema)) rest

/-- The `parameters` rebuilding loop of `convert_components`. -/
def convertParamsMap (acc : YamlDict) : YamlDict → YamlDict
  | .nil => acc
  | .cons name parameter rest =>
    convertParamsMap (acc.insert name (.obj (convert_parameter parameter.asObj))) rest

/-- The `responses` rebuilding loop of `convert_components`: each entry is
wrapped as a synthetic single-entry status map, converted through
`convert_responses`, and unwrapped back. -/
def convertResponsesMap (acc : YamlDict) : YamlDict → YamlDict
  | .nil => acc
  | .cons name response rest =>
    let cr := (convert_responses (.cons "default" response .nil)).1
    convertResponsesMap (acc.insert name ((cr.lookup "default").getD (.obj .nil))) rest

/-- The `securityDefinitions` rebuilding loop of `convert_components`. -/
def convertSecurityMap (acc : YamlDict) : YamlDict → YamlDict
  | .nil => acc
  | .cons name scheme rest =>
    convertSecurityMap (acc.insert name (.obj (convert_security_scheme scheme.asObj))) rest

/-- Components Converter (`convert_components`). -/
def convert_components (components : YamlDict) : YamlDict :=
  let converted : YamlDict := .nil
  let converted :=
    if truthyO (components.lookup "schemas") then
      converted.insert "definitions"
        (.obj (convertSchemasMap .nil ((components.lookup "schemas").getD .null).asObj))
    else converted
  let converted :=
    if truthyO (components.lookup "parameters") then
      converted.insert "parameters"
        (.obj (convertParamsMap .nil ((components.lookup "parameters").getD .null).asObj))
    else converted
  let converted :=
    if truthyO (components.lookup "responses") then
      converted.insert "responses"
        (.obj (convertResponsesMap .nil ((components.lookup "responses").getD .null).asObj))
    else converted
  let converted :=
    if truthyO (components.lookup "securitySchemes") then
      converted.insert "securityDefinitions"
        (.obj (convertSecurityMap .nil ((components.lookup "securitySchemes").getD .null).asObj))
    else converted
  converted

/-- The `paths` rebuilding loop of `convert_openapi_to_swagger`. -/
def convertPathsMap (acc : YamlDict) : YamlDict → YamlDict
  | .nil => acc
  | .cons path path_item rest =>
    convertPathsMap (acc.insert path (.obj (convert_path_item path_item.asObj))) rest

/-- The final top-level vendor-extension loop of
`convert_openapi_to_swagger` (deep copies are the identity on pure values). -/
def documentExtensions (acc : YamlDict) : YamlDict → YamlDict
  | .nil => acc
  | .cons k v rest =>
    documentExtensions (if strStartsWith k "x-" then acc.insert k v else acc) rest

/-- Document Converter (`convert_openapi_to_swagger`). -/
def convert_openapi_to_swagger (openapi_spec : YamlDict) : YamlDict :=
  let swagger : YamlDict := .nil
  let swagger := swagger.insert "swagger" (.str "2.0")
  let swagger := swagger.insert "info" ((openapi_spec.lookup "info").getD (.obj .nil))
  let swagger := swagger.insert "consumes" (.arr (.cons (.str "application/json") .nil))
  let swagger := swagger.insert "produces" (.arr (.cons (.str "application/json") .nil))
  let swagger := swagger.insert "x-ms-connector-metadata"
    (.obj (.cons "categories" (.arr (.cons (.str "eSignature") .nil))
      (.cons "visibility" (.str "important") .nil)))
  let swagger :=
    match openapi_spec.lookup "servers" with
    | some (.arr (.cons server0 _)) =>
      let hbs := parse_server server0.asObj
      let swagger := if hbs.1 ≠ "" then swagger.insert "host" (.str hbs.1) else swagger
      let swagger :=
        if hbs.2.1 ≠ "" ∧ hbs.2.1 ≠ "/" then swagger.insert "basePath" (.str hbs.2.1)
        else swagger
      match hbs.2.2 with
      | [] => swagger
      | schemes => swagger.insert "schemes" (.arr (ofStrings schemes))
    | _ => swagger
  let swagger :=
    if truthyO (openapi_spec.lookup "tags") then
      swagger.insert "tags" ((openapi_spec.lookup "tags").getD .null)
    else swagger
  let swagger :=
    if truthyO (openapi_spec.lookup "externalDocs") then
      swagger.insert "externalDocs" ((openapi_spec.lookup "externalDocs").getD .null)
    else swagger
  let swagger :=
    if truthyO (openapi_spec.lookup "security") then
      swagger.insert "security" ((openapi_spec.lookup "security").getD .null)
    else swagger
  let components :=
    match openapi_spec.lookup "components" with
    | some v => if truthy v then v.asObj else .nil
    | none => .nil
  let swagger := dictUpdate swagger (convert_components components)
  let swagger :=
    swagger.insert "paths"
      (.obj (convertPathsMap .nil ((openapi_spec.lookup "paths").getD (.obj .nil)).asObj))
  documentExtensions swagger openapi_spec

/-- The mapping keys that claim C1 asserts are absent from transformed
schemas: each is either renamed to an `x-` form or (for falsy `nullable`)
dropped by `convert_schema`. -/
def bannedKeys : List String :=
  ["nullable", "deprecated", "discriminator", "allOf", "anyOf", "oneOf", "not"]

mutual
/-- No mapping key from `bannedKeys` occurs anywhere in the tree. -/
def noBanned : Yaml → Bool
  | .arr l => noBannedList l
  | .obj d => noBannedDict d
  | _ => true

/-- Sequence version of `noBanned`. -/
def noBannedList : YamlList → Bool
  | .nil => true
  | .cons y rest => noBanned y && noBannedList rest

/-- Mapping version of `noBanned`: no banned key on this node and none in
any value. -/
def noBannedDict : YamlDict → Bool
  | .nil => true
  | .cons k v rest => !(bannedKeys.contains k) && noBanned v && noBannedDict rest
end

mutual
/-- Sufficient condition on an input schema for the transformed output to be
free of banned keys (claim C1 as amended):  hereditarily through the
recursively transformed positions, every `$ref` value is a string; the
verbatim-copied metadata values (`deprecated`, `discriminator`, `example`,
`examples`, `xml`) contain no banned keys themselves; `properties` /
`patternProperties` values are mappings whose property names are not banned
words (the names are copied verbatim). -/
def schemaSafe : Yaml → Bool
  | .arr l => schemaSafeList l
  | .obj d => schemaSafeDict d
  | _ => true

/-- Sequence version of `schemaSafe`. -/
def schemaSafeList : YamlList → Bool
  | .nil => true
  | .cons y rest => schemaSafe y && schemaSafeList rest

/-- Mapping version of `schemaSafe`, with one condition per key class of
`convert_schema_step`. -/
def schemaSafeDict : YamlDict → Bool
  | .nil => true
  | .cons k v rest =>
    (if k = "$ref" then v.isString
     else if k = "deprecated" ∨ k = "discriminator" ∨ k = "example" ∨ k = "examples" ∨ k = "xml" then
       noBanned v
     else if k = "properties" ∨ k = "patternProperties" then
       (match v with
        | .obj props => propsSafe props
        | _ => false)
     else schemaSafe v)
      && schemaSafeDict rest

/-- Property maps are safe when no property name is a banned word and every
property schema is safe. -/
def propsSafe : YamlDict → Bool
  | .nil => true
  | .cons name s rest => !(bannedKeys.contains name) && schemaSafe s && propsSafe rest
end

/-- Pointwise agreement of two mappings up to the values of keys that do not
carry the vendor-extension marker: same key spine, and equal values wherever
the key starts with `x-`.  The extension-copy loops cannot distinguish two
such mappings. -/
def xAgree : YamlDict → YamlDict → Prop
  | .nil, .nil => True
  | .cons k v r, .cons k' v' r' =>
    k = k' ∧ (strStartsWith k "x-" = true → v = v') ∧ xAgree r r'
  | _, _ => False

/-- The output keys that renaming inside `convert_schema` can produce: a
later sibling key of the same schema node renaming onto one of these names
overwrites an input vendor extension of that name. -/
def renamedTargets : List String :=
  ["x-nullable", "x-deprecated", "x-discriminator", "x-examples",
   "x-allOf", "x-anyOf", "x-oneOf", "x-not"]

/-- The per-entry condition of `schemaSafeDict`, restated standalone. -/
def schemaSafeEntry (k : String) (v : Yaml) : Bool :=
  if k = "$ref" then v.isString
  else if k = "deprecated" ∨ k = "discriminator" ∨ k = "example" ∨ k = "examples" ∨ k = "xml" then
    noBanned v
  else if k = "properties" ∨ k = "patternProperties" then
    (match v with
     | .obj props => propsSafe props
     | _ => false)
  else schemaSafe v

def exampleTwoServerDoc : YamlDict :=
  .cons "openapi" (.str "3.0.0")
    (.cons "info" (.obj (.cons "title" (.str "Example") (.cons "version" (.str "1.0") .nil)))
      (.cons "servers" (.arr
        (.cons (.obj (.cons "url" (.str "https://api.example.com/v1") .nil))
          (.cons (.obj (.cons "url" (.str "https://backup.example.com/v1") .nil)) .nil)))
        .nil))

/-- The entry loop advances by one `convert_schema_step` per entry. -/
theorem convert_schema_entries_cons (acc : YamlDict) (key : String) (value : Yaml)
    (rest : YamlDict) :
    convert_schema_entries acc (.cons key value rest)
      = convert_schema_entries (convert_schema_step acc key value) rest := by
  cases value <;> simp only [convert_schema_entries, convert_schema_step]

/-- Structural induction on the spine of a mapping (the `induction` tactic
does not directly support the mutual family). -/
theorem dictInductionOn {motive : YamlDict → Prop} (d : YamlDict)
    (nil : motive .nil)
    (cons : ∀ k v rest, motive rest → motive (.cons k v rest)) : motive d :=
  match d with
  | .nil => nil
  | .cons k v rest => cons k v rest (dictInductionOn rest nil cons)

/-- Structural induction on the spine of a sequence. -/
theorem listInductionOn {motive : YamlList → Prop} (l : YamlList)
    (nil : motive .nil)
    (cons : ∀ y rest, motive rest → motive (.cons y rest)) : motive l :=
  match l with
  | .nil => nil
  | .cons y rest => cons y rest (listInductionOn rest nil cons)

theorem lookup_insert_self (d : YamlDict) (k : String) (v : Yaml) :
    (d.insert k v).lookup k = some v := by
  induction d using dictInductionOn with
  | nil => simp [YamlDict.insert, YamlDict.lookup]
  | cons k0 v0 rest ih =>
    by_cases h : k0 = k
    · simp [YamlDict.insert, YamlDict.lookup, h]
    · simp [YamlDict.insert, YamlDict.lookup, h, ih]

theorem lookup_insert_ne (d : YamlDict) (k' k : String) (v : Yaml) (h : k' ≠ k) :
    (d.insert k' v).lookup k = d.lookup k := by
  induction d using dictInductionOn with
  | nil => simp [YamlDict.insert, YamlDict.lookup, h]
  | cons k0 v0 rest ih =>
    by_cases h0 : k0 = k'
    · subst h0; simp [YamlDict.insert, YamlDict.lookup, h]
    · by_cases h1 : k0 = k
      · subst h1; simp [YamlDict.insert, YamlDict.lookup, h0]
      · simp [YamlDict.insert, YamlDict.lookup, h0, h1, ih]

theorem lookup_optInsert_ne (d : YamlDict) (k' k : String) (o : Option Yaml) (h : k' ≠ k) :
    (optInsert d k' o).lookup k = d.lookup k := by
  cases o with
  | some v => simp [optInsert, lookup_insert_ne d k' k v h]
  | none => simp [optInsert]

theorem lookup_erase_ne (d : YamlDict) (k' k : String) (h : k' ≠ k) :
    (d.erase k').lookup k = d.lookup k := by
  induction d using dictInductionOn with
  | nil => simp [YamlDict.erase]
  | cons k0 v0 rest ih =>
    by_cases h0 : k0 = k'
    · subst h0; simp [YamlDict.erase, YamlDict.lookup, h]
    · by_cases h1 : k0 = k
      · subst h1; simp [YamlDict.erase, YamlDict.lookup, h0]
      · simp [YamlDict.erase, YamlDict.lookup, h0, h1, ih]

theorem hasKey_eq_isSome_lookup (d : YamlDict) (k : String) :
    d.hasKey k = (d.lookup k).isSome := by
  induction d using dictInductionOn with
  | nil => simp [YamlDict.hasKey, YamlDict.lookup]
  | cons k0 v0 rest ih =>
    by_cases h : k0 = k
    · simp [YamlDict.hasKey, YamlDict.lookup, h]
    · simp [YamlDict.hasKey, YamlDict.lookup, h, ih]

theorem mem_keys_iff_hasKey (d : YamlDict) (k : String) :
    k ∈ d.keys ↔ d.hasKey k = true := by
  induction d using dictInductionOn with
  | nil => simp [YamlDict.keys, YamlDict.hasKey]
  | cons k0 v0 rest ih =>
    by_cases h : k0 = k
    · simp [YamlDict.keys, YamlDict.hasKey, h]
    · simp [YamlDict.keys, YamlDict.hasKey, h, ih, Ne.symm h]

theorem mem_keys_insert (d : YamlDict) (k' k : String) (v : Yaml) :
    k ∈ (d.insert k' v).keys ↔ k ∈ d.keys ∨ k = k' := by
  induction d using dictInductionOn with
  | nil => simp [YamlDict.insert, YamlDict.keys]
  | cons k0 v0 rest ih =>
    by_cases h0 : k0 = k'
    · subst h0
      simp only [YamlDict.insert, if_pos rfl, YamlDict.keys, List.mem_cons]
      tauto
    · simp only [YamlDict.insert, if_neg h0, YamlDict.keys, List.mem_cons, ih]
      tauto

theorem keysNodup_insert (d : YamlDict) (k : String) (v : Yaml) (h : keysNodup d) :
    keysNodup (d.insert k v) := by
  induction d using dictInductionOn with
  | nil => simp [YamlDict.insert, YamlDict.keys, keysNodup]
  | cons k0 v0 rest ih =>
    by_cases h0 : k0 = k
    · subst h0
      simpa [YamlDict.insert, YamlDict.keys, keysNodup] using h
    · simp only [keysNodup, YamlDict.keys, List.nodup_cons] at h
      have h2 := ih h.2
      simp only [YamlDict.insert, if_neg h0, keysNodup, YamlDict.keys, List.nodup_cons]
      refine ⟨?_, h2⟩
      rw [mem_keys_insert]
      rintro (hmem | heq)
      · exact h.1 hmem
      · exact h0 heq

theorem keysNodup_optInsert (d : YamlDict) (k : String) (o : Option Yaml) (h : keysNodup d) :
    keysNodup (optInsert d k o) := by
  cases o with
  | some v => exact keysNodup_insert d k v h
  | none => exact h

theorem keysNodup_nil : keysNodup .nil := by simp [keysNodup, YamlDict.keys]

theorem keysNodup_cons_iff (k : String) (v : Yaml) (rest : YamlDict) :
    keysNodup (.cons k v rest) ↔ rest.hasKey k = false ∧ keysNodup rest := by
  simp only [keysNodup, YamlDict.keys, List.nodup_cons, mem_keys_iff_hasKey]
  constructor
  · rintro ⟨h1, h2⟩
    exact ⟨by simpa using h1, h2⟩
  · rintro ⟨h1, h2⟩
    exact ⟨by simp [h1], h2⟩

theorem lookup_of_hasKey_false (d : YamlDict) (k : String) (h : d.hasKey k = false) :
    d.lookup k = none := by
  rw [hasKey_eq_isSome_lookup] at h
  cases hl : d.lookup k with
  | none => rfl
  | some v => rw [hl] at h; simp at h

theorem dictUpdate_lookup_absent (src : YamlDict) (d : YamlDict) (k : String)
    (h : src.hasKey k = false) :
    (dictUpdate d src).lookup k = d.lookup k := by
  induction src using dictInductionOn generalizing d with
  | nil => simp [dictUpdate]
  | cons k0 v0 rest ih =>
    simp only [YamlDict.hasKey, Bool.or_eq_false_iff] at h
    have hne : k0 ≠ k := by
      intro he; rw [he] at h; simp at h
    simp only [dictUpdate]
    rw [ih _ h.2, lookup_insert_ne d k0 k v0 hne]

theorem dictUpdate_lookup (src : YamlDict) (d : YamlDict) (k : String) (h : keysNodup src) :
    (dictUpdate d src).lookup k =
      match src.lookup k with
      | some v => some v
      | none => d.lookup k := by
  induction src using dictInductionOn generalizing d with
  | nil => simp [dictUpdate, YamlDict.lookup]
  | cons k0 v0 rest ih =>
    rw [keysNodup_cons_iff] at h
    by_cases h0 : k0 = k
    · subst h0
      rw [dictUpdate, dictUpdate_lookup_absent rest _ k0 h.1, lookup_insert_self]
      simp [YamlDict.lookup]
    · simp only [dictUpdate, YamlDict.lookup, if_neg h0]
      rw [ih _ h.2]
      cases rest.lookup k with
      | some v => rfl
      | none => simp [lookup_insert_ne d k0 k v0 h0]

theorem startsWith_x_ne {k0 k : String} (h0 : strStartsWith k0 "x-" = true)
    (h : strStartsWith k "x-" = false) : k0 ≠ k := by
  intro he; rw [he] at h0; rw [h0] at h; exact Bool.noConfusion h

theorem copyExtensions_lookup_not_x (src : YamlDict) (acc : YamlDict) (k : String)
    (h : strStartsWith k "x-" = false) :
    (copyExtensions acc src).lookup k = acc.lookup k := by
  induction src using dictInductionOn generalizing acc with
  | nil => simp [copyExtensions]
  | cons k0 v0 rest ih =>
    simp only [copyExtensions]
    rw [ih]
    by_cases hx : strStartsWith k0 "x-"
    · simp only [hx, if_pos rfl]
      exact lookup_insert_ne acc k0 k v0 (startsWith_x_ne hx h)
    · simp [hx]

theorem copyExtensions_lookup_absent (src : YamlDict) (acc : YamlDict) (k : String)
    (h : src.hasKey k = false) :
    (copyExtensions acc src).lookup k = acc.lookup k := by
  induction src using dictInductionOn generalizing acc with
  | nil => simp [copyExtensions]
  | cons k0 v0 rest ih =>
    simp only [YamlDict.hasKey, Bool.or_eq_false_iff] at h
    have hne : k0 ≠ k := by
      intro he; rw [he] at h; simp at h
    simp only [copyExtensions]
    rw [ih _ h.2]
    by_cases hx : strStartsWith k0 "x-"
    · simp [hx, lookup_insert_ne acc k0 k v0 hne]
    · simp [hx]

theorem copyExtensions_lookup_of_mem (src : YamlDict) (acc : YamlDict) (k : String) (v : Yaml)
    (hx : strStartsWith k "x-" = true) (hnd : keysNodup src) (hl : src.lookup k = some v) :
    (copyExtensions acc src).lookup k = some v := by
  induction src using dictInductionOn generalizing acc with
  | nil => simp [YamlDict.lookup] at hl
  | cons k0 v0 rest ih =>
    rw [keysNodup_cons_iff] at hnd
    by_cases h0 : k0 = k
    · subst h0
      simp [YamlDict.lookup] at hl
      subst hl
      rw [copyExtensions, if_pos hx, copyExtensions_lookup_absent rest _ k0 hnd.1,
        lookup_insert_self]
    · simp only [YamlDict.lookup, if_neg h0] at hl
      simp only [copyExtensions]
      exact ih _ hnd.2 hl

theorem lookup_condInsert_ne (c : Prop) [Decidable c] (acc : YamlDict) (k' k : String)
    (v : Yaml) (h : k' ≠ k) :
    (if c then acc.insert k' v else acc).lookup k = acc.lookup k := by
  by_cases hc : c
  · rw [if_pos hc]; exact lookup_insert_ne acc k' k v h
  · rw [if_neg hc]

theorem lookup_xCondInsert (acc : YamlDict) (k0 k : String) (v : Yaml)
    (h : strStartsWith k "x-" = false) :
    (if strStartsWith k0 "x-" = true then acc.insert k0 v else acc).lookup k
      = acc.lookup k := by
  by_cases hx : strStartsWith k0 "x-" = true
  · rw [if_pos hx]; exact lookup_insert_ne acc k0 k v (startsWith_x_ne hx h)
  · rw [if_neg hx]

theorem operation_ext_loop_lookup_not_x (src : YamlDict) (acc : YamlDict) (k : String)
    (h : strStartsWith k "x-" = false) :
    (operation_ext_loop acc src).lookup k = acc.lookup k := by
  induction src using dictInductionOn generalizing acc with
  | nil => simp [operation_ext_loop]
  | cons k0 v0 rest ih =>
    have hcb : k ≠ "x-callbacks" :=
      fun he => Bool.noConfusion (he ▸ h : strStartsWith "x-callbacks" "x-" = false)
    have hsv : k ≠ "x-servers" :=
      fun he => Bool.noConfusion (he ▸ h : strStartsWith "x-servers" "x-" = false)
    simp only [operation_ext_loop]
    rw [ih, lookup_condInsert_ne _ _ _ _ _ (Ne.symm hsv),
      lookup_condInsert_ne _ _ _ _ _ (Ne.symm hcb), lookup_xCondInsert _ _ _ _ h]

theorem path_item_ext_loop_lookup_not_x (src : YamlDict) (acc : YamlDict) (k : String)
    (h : strStartsWith k "x-" = false) :
    (path_item_ext_loop acc src).lookup k = acc.lookup k := by
  induction src using dictInductionOn generalizing acc with
  | nil => simp [path_item_ext_loop]
  | cons k0 v0 rest ih =>
    have hsv : k ≠ "x-servers" :=
      fun he => Bool.noConfusion (he ▸ h : strStartsWith "x-servers" "x-" = false)
    simp only [path_item_ext_loop]
    rw [ih, lookup_condInsert_ne _ _ _ _ _ (Ne.symm hsv), lookup_xCondInsert _ _ _ _ h]


theorem documentExtensions_lookup_not_x (src : YamlDict) (acc : YamlDict) (k : String)
    (h : strStartsWith k "x-" = false) :
    (documentExtensions acc src).lookup k = acc.lookup k := by
  induction src using dictInductionOn generalizing acc with
  | nil => simp [documentExtensions]
  | cons k0 v0 rest ih =>
    simp only [documentExtensions]
    rw [ih]
    by_cases hx : strStartsWith k0 "x-"
    · simp only [hx, if_pos rfl]
      exact lookup_insert_ne acc k0 k v0 (startsWith_x_ne hx h)
    · simp [hx]

/-- C10: for every parameter object whose only key is `$ref`, the Parameter
Converter returns the empty mapping: the reference string is neither
rewritten nor preserved in the converted parameter — it is silently
dropped, whatever the value of the `$ref` key is. -/
theorem convert_parameter_ref_only_dropped (v : Yaml) :
    convert_parameter (.cons "$ref" v .nil) = .nil := rfl

theorem isStr_ne {o : Option Yaml} {a b : String} (h : isStr o a = true) (hne : a ≠ b) :
    isStr o b = false := by
  cases o with
  | none => simp [isStr] at h
  | some v =>
    cases v with
    | str t =>
      simp only [isStr, decide_eq_true_eq] at h
      subst h
      simp [isStr, hne]
    | null => simp [isStr] at h
    | bool b0 => simp [isStr] at h
    | num n => simp [isStr] at h
    | arr l => simp [isStr] at h
    | obj d => simp [isStr] at h

theorem keysNodup_copyFieldList (fs : List String) (schema : YamlDict) (res : YamlDict)
    (h : keysNodup res) : keysNodup (copyFieldList res schema fs) := by
  induction fs generalizing res with
  | nil => simpa [copyFieldList] using h
  | cons f rest ih => exact ih _ (keysNodup_optInsert res f _ h)

theorem keysNodup_xCopyIfAbsent (src : YamlDict) (res : YamlDict) (h : keysNodup res) :
    keysNodup (xCopyIfAbsent res src) := by
  induction src using dictInductionOn generalizing res with
  | nil => simpa [xCopyIfAbsent] using h
  | cons k0 v0 rest ih =>
    simp only [xCopyIfAbsent]
    apply ih
    by_cases hc : strStartsWith k0 "x-" && !res.hasKey k0
    · rw [if_pos hc]; exact keysNodup_insert res k0 v0 h
    · rw [if_neg hc]; exact h

theorem keysNodup_stpf_fuel (fuel : Nat) (schema : YamlDict) :
    keysNodup (schema_to_parameter_fields_fuel fuel schema) := by
  induction fuel generalizing schema with
  | zero => exact keysNodup_nil
  | succ n ih =>
    simp only [schema_to_parameter_fields_fuel]
    apply keysNodup_xCopyIfAbsent
    apply keysNodup_copyFieldList
    by_cases ht : isStr (schema.lookup "type") "array" = true
    · rw [if_pos ht]
      cases hi : schema.lookup "items" with
      | none => exact keysNodup_nil
      | some v =>
        cases v with
        | obj items => exact keysNodup_insert _ _ _ keysNodup_nil
        | null => exact keysNodup_nil
        | bool b => exact keysNodup_nil
        | num n0 => exact keysNodup_nil
        | str s => exact keysNodup_nil
        | arr l => exact keysNodup_nil
    · rw [if_neg ht]; exact keysNodup_nil

theorem keysNodup_stpf (schema : YamlDict) : keysNodup (schema_to_parameter_fields schema) :=
  keysNodup_stpf_fuel _ _

theorem param_base_lookup_cf (parameter : YamlDict) :
    (optInsert (optInsert (optInsert (optInsert (optInsert (optInsert .nil
        "name" (parameter.lookup "name"))
        "in" (parameter.lookup "in"))
        "description" (parameter.lookup "description"))
        "required" (parameter.lookup "required"))
        "x-deprecated" (parameter.lookup "deprecated"))
        "allowEmptyValue" (parameter.lookup "allowEmptyValue")).lookup "collectionFormat"
      = none := by
  rw [lookup_optInsert_ne _ _ _ _ (by decide), lookup_optInsert_ne _ _ _ _ (by decide),
    lookup_optInsert_ne _ _ _ _ (by decide), lookup_optInsert_ne _ _ _ _ (by decide),
    lookup_optInsert_ne _ _ _ _ (by decide), lookup_optInsert_ne _ _ _ _ (by decide)]
  rfl

/-- C4 (amended): for every non-body parameter the style mapping emits
`collectionFormat: "multi"` exactly when `style` is `form` and `explode` is
truthy, `"csv"` exactly when `style` is `form` and `explode` is absent or
falsy, `"ssv"` exactly when `style` is `spaceDelimited` and `"pipes"`
exactly when `style` is `pipeDelimited`; with any other or absent `style`
the style mapping emits nothing, but a `collectionFormat` key copied
verbatim from the flattened schema allow-list may still be present in the
output (and is overwritten whenever a style mapping applies). -/
theorem convert_parameter_style_mapping (parameter : YamlDict)
    (hbody : isStr (parameter.lookup "in") "body" = false) :
    (convert_parameter parameter).lookup "collectionFormat" =
      if isStr (parameter.lookup "style") "form" && truthyO (parameter.lookup "explode") then
        some (.str "multi")
      else if isStr (parameter.lookup "style") "form" then some (.str "csv")
      else if isStr (parameter.lookup "style") "spaceDelimited" then some (.str "ssv")
      else if isStr (parameter.lookup "style") "pipeDelimited" then some (.str "pipes")
      else if truthyO (parameter.lookup "schema") then
        (schema_to_parameter_fields
            (convert_schema ((parameter.lookup "schema").getD .null)).asObj).lookup
          "collectionFormat"
      else none := by
  have hcfx : strStartsWith "collectionFormat" "x-" = false := rfl
  simp only [convert_parameter]
  rw [if_neg (by simp [hbody])]
  rw [copyExtensions_lookup_not_x _ _ _ hcfx]
  by_cases hform : isStr (parameter.lookup "style") "form" = true
  · have hsp := isStr_ne hform (by decide : "form" ≠ "spaceDelimited")
    have hpp := isStr_ne hform (by decide : "form" ≠ "pipeDelimited")
    by_cases hex : truthyO (parameter.lookup "explode") = true
    · have hml : (isStr (parameter.lookup "style") "form"
          && truthyO (parameter.lookup "explode")) = true := by simp [hform, hex]
      simp [hml, hsp, hpp, lookup_insert_self]
    · have hex' : truthyO (parameter.lookup "explode") = false := Bool.eq_false_iff.mpr hex
      have hml : (isStr (parameter.lookup "style") "form"
          && truthyO (parameter.lookup "explode")) = false := by simp [hex']
      simp [hml, hform, hex', hsp, hpp, lookup_insert_self]
  · have hform' : isStr (parameter.lookup "style") "form" = false :=
      Bool.eq_false_iff.mpr hform
    have hml : (isStr (parameter.lookup "style") "form"
        && truthyO (parameter.lookup "explode")) = false := by simp [hform']
    by_cases hsp : isStr (parameter.lookup "style") "spaceDelimited" = true
    · have hpp := isStr_ne hsp (by decide : "spaceDelimited" ≠ "pipeDelimited")
      simp [hml, hform', hsp, hpp, lookup_insert_self]
    · have hsp' : isStr (parameter.lookup "style") "spaceDelimited" = false :=
        Bool.eq_false_iff.mpr hsp
      by_cases hpp : isStr (parameter.lookup "style") "pipeDelimited" = true
      · simp [hml, hform', hsp', hpp, lookup_insert_self]
      · have hpp' : isStr (parameter.lookup "style") "pipeDelimited" = false :=
          Bool.eq_false_iff.mpr hpp
        simp only [hml, hform', hsp', hpp', Bool.false_and, Bool.false_eq_true, if_false]
        by_cases hsch : truthyO (parameter.lookup "schema") = true
        · simp only [hsch, if_true]
          rw [lookup_condInsert_ne _ _ _ _ _ (by decide : "x-example" ≠ "collectionFormat")]
          rw [dictUpdate_lookup _ _ _ (keysNodup_stpf _)]
          cases hf : (schema_to_parameter_fields
              (convert_schema ((parameter.lookup "schema").getD .null)).asObj).lookup
              "collectionFormat" with
          | some v => rfl
          | none => exact param_base_lookup_cf parameter
        · have hsch' : truthyO (parameter.lookup "schema") = false := Bool.eq_false_iff.mpr hsch
          simp only [hsch', Bool.false_eq_true, if_false]
          exact param_base_lookup_cf parameter

/-- C4 counterexample: a non-body parameter with no `style` key at all still
carries `collectionFormat: "multi"` in its converted form — the value is
copied verbatim from the flattened schema allow-list — contradicting the
claim that no other or absent style value causes a `collectionFormat` to be
emitted. -/
theorem convert_parameter_collectionFormat_without_style :
    (YamlDict.cons "name" (.str "p")
      (.cons "in" (.str "query")
        (.cons "schema" (.obj (.cons "type" (.str "string")
          (.cons "collectionFormat" (.str "multi") .nil))) .nil))).lookup "style" = none
    ∧ (convert_parameter (.cons "name" (.str "p")
        (.cons "in" (.str "query")
          (.cons "schema" (.obj (.cons "type" (.str "string")
            (.cons "collectionFormat" (.str "multi") .nil))) .nil)))).lookup "collectionFormat"
      = some (.str "multi") := ⟨rfl, rfl⟩

/-- C4 witness: the style mapping theorem evaluated at a concrete `form` +
`explode: true` query parameter yields `collectionFormat: "multi"`. -/
theorem convert_parameter_style_mapping_witness :
    (convert_parameter (.cons "name" (.str "p")
      (.cons "in" (.str "query")
        (.cons "style" (.str "form")
          (.cons "explode" (.bool true) .nil))))).lookup "collectionFormat"
      = some (.str "multi") := by
  rw [convert_parameter_style_mapping _ (by rfl)]
  rfl

theorem operation_base_lookup_other (op : YamlDict) (k : String)
    (ht : "tags" ≠ k) (hs : "summary" ≠ k) (hd : "description" ≠ k)
    (ho : "operationId" ≠ k) (hdep : "deprecated" ≠ k) (hsec : "security" ≠ k)
    (hed : "externalDocs" ≠ k) :
    (operation_base op).lookup k = none := by
  simp only [operation_base]
  rw [lookup_optInsert_ne _ _ _ _ hdep, lookup_optInsert_ne _ _ _ _ hed,
    lookup_optInsert_ne _ _ _ _ hsec, lookup_optInsert_ne _ _ _ _ hdep,
    lookup_optInsert_ne _ _ _ _ ho, lookup_optInsert_ne _ _ _ _ hd,
    lookup_optInsert_ne _ _ _ _ hs, lookup_optInsert_ne _ _ _ _ ht]
  rfl

theorem operation_base_lookup_consumes (op : YamlDict) :
    (operation_base op).lookup "consumes" = none :=
  operation_base_lookup_other op "consumes" (by decide) (by decide) (by decide) (by decide)
    (by decide) (by decide) (by decide)

theorem operation_base_lookup_produces (op : YamlDict) :
    (operation_base op).lookup "produces" = none :=
  operation_base_lookup_other op "produces" (by decide) (by decide) (by decide) (by decide)
    (by decide) (by decide) (by decide)

theorem operation_base_lookup_parameters (op : YamlDict) :
    (operation_base op).lookup "parameters" = none :=
  operation_base_lookup_other op "parameters" (by decide) (by decide) (by decide) (by decide)
    (by decide) (by decide) (by decide)

theorem convert_operation_lookup_consumes (op : YamlDict) :
    (convert_operation op).1.lookup "consumes" =
      match operation_consumes op with
      | [] => none
      | l => some (.arr (ofStrings (sortedUnique l))) := by
  simp only [convert_operation]
  rw [operation_ext_loop_lookup_not_x _ _ _ (by rfl)]
  cases hpr : (convert_responses ((op.lookup "responses").getD (.obj .nil)).asObj).2 with
  | nil =>
    cases hc : operation_consumes op with
    | nil =>
      rw [lookup_insert_ne _ _ _ _ (by decide)]
      cases hp : operation_params op with
      | nil => exact operation_base_lookup_consumes op
      | cons a b =>
        rw [lookup_insert_ne _ _ _ _ (by decide)]
        exact operation_base_lookup_consumes op
    | cons c cs => exact lookup_insert_self _ _ _
  | cons p ps =>
    rw [lookup_insert_ne _ _ _ _ (by decide)]
    cases hc : operation_consumes op with
    | nil =>
      rw [lookup_insert_ne _ _ _ _ (by decide)]
      cases hp : operation_params op with
      | nil => exact operation_base_lookup_consumes op
      | cons a b =>
        rw [lookup_insert_ne _ _ _ _ (by decide)]
        exact operation_base_lookup_consumes op
    | cons c cs => exact lookup_insert_self _ _ _

theorem convert_operation_lookup_produces (op : YamlDict) :
    (convert_operation op).1.lookup "produces" =
      match (convert_responses ((op.lookup "responses").getD (.obj .nil)).asObj).2 with
      | [] => none
      | l => some (.arr (ofStrings (sortedUnique l))) := by
  simp only [convert_operation]
  rw [operation_ext_loop_lookup_not_x _ _ _ (by rfl)]
  cases hpr : (convert_responses ((op.lookup "responses").getD (.obj .nil)).asObj).2 with
  | nil =>
    cases hc : operation_consumes op with
    | nil =>
      rw [lookup_insert_ne _ _ _ _ (by decide)]
      cases hp : operation_params op with
      | nil => exact operation_base_lookup_produces op
      | cons a b =>
        rw [lookup_insert_ne _ _ _ _ (by decide)]
        exact operation_base_lookup_produces op
    | cons c cs =>
      rw [lookup_insert_ne _ _ _ _ (by decide), lookup_insert_ne _ _ _ _ (by decide)]
      cases hp : operation_params op with
      | nil => exact operation_base_lookup_produces op
      | cons a b =>
        rw [lookup_insert_ne _ _ _ _ (by decide)]
        exact operation_base_lookup_produces op
  | cons p ps => exact lookup_insert_self _ _ _

theorem convert_operation_lookup_parameters (op : YamlDict) :
    (convert_operation op).1.lookup "parameters" =
      match operation_params op with
      | .nil => none
      | ps => some (.arr ps) := by
  simp only [convert_operation]
  rw [operation_ext_loop_lookup_not_x _ _ _ (by rfl)]
  cases hpr : (convert_responses ((op.lookup "responses").getD (.obj .nil)).asObj).2 with
  | nil =>
    cases hc : operation_consumes op with
    | nil =>
      rw [lookup_insert_ne _ _ _ _ (by decide)]
      cases hp : operation_params op with
      | nil => exact operation_base_lookup_parameters op
      | cons a b => exact lookup_insert_self _ _ _
    | cons c cs =>
      rw [lookup_insert_ne _ _ _ _ (by decide), lookup_insert_ne _ _ _ _ (by decide)]
      cases hp : operation_params op with
      | nil => exact operation_base_lookup_parameters op
      | cons a b => exact lookup_insert_self _ _ _
  | cons p ps =>
    rw [lookup_insert_ne _ _ _ _ (by decide)]
    cases hc : operation_consumes op with
    | nil =>
      rw [lookup_insert_ne _ _ _ _ (by decide)]
      cases hp : operation_params op with
      | nil => exact operation_base_lookup_parameters op
      | cons a b => exact lookup_insert_self _ _ _
    | cons c cs =>
      rw [lookup_insert_ne _ _ _ _ (by decide), lookup_insert_ne _ _ _ _ (by decide)]
      cases hp : operation_params op with
      | nil => exact operation_base_lookup_parameters op
      | cons a b => exact lookup_insert_self _ _ _

/-- C9: for every requestBody whose `content` mapping is absent or falsy
(in particular empty), the Request Body Converter returns the empty
parameter mapping and the empty consumed-media-types list, and an operation
carrying such a requestBody gets no body parameter appended (its converted
parameter list is exactly its declared parameters, the key being omitted
when that list is empty) and no `consumes` key. -/
theorem convert_request_body_empty_content (rb : YamlDict)
    (h : truthy ((rb.lookup "content").getD (.obj .nil)) = false) :
    convert_request_body rb = (.nil, [])
    ∧ ∀ op : YamlDict, op.lookup "requestBody" = some (.obj rb) →
        (convert_operation op).1.lookup "consumes" = none
        ∧ (convert_operation op).1.lookup "parameters" =
            (match convert_parameter_list ((op.lookup "parameters").getD (.arr .nil)).asArr with
             | .nil => none
             | ps => some (.arr ps)) := by
  have h1 : convert_request_body rb = (.nil, []) := by
    simp only [convert_request_body]
    cases hc : (rb.lookup "content").getD (.obj .nil) with
    | obj d =>
      cases d with
      | nil => rfl
      | cons mt mo rest =>
        rw [hc] at h
        exact absurd h (by simp [truthy])
    | null => rfl
    | bool b => rfl
    | num n => rfl
    | str s => rfl
    | arr l => rfl
  refine ⟨h1, fun op hop => ?_⟩
  have hcons : operation_consumes op = [] := by
    simp only [operation_consumes, hop, h1]
  have hparams : operation_params op =
      convert_parameter_list ((op.lookup "parameters").getD (.arr .nil)).asArr := by
    simp [operation_params, hop, h1, truthy]
  constructor
  · rw [convert_operation_lookup_consumes op, hcons]
  · rw [convert_operation_lookup_parameters op, hparams]

/-- C9 witness: a requestBody with an explicitly empty `content` mapping,
inside an operation that declares only that requestBody and an empty
`responses` mapping. -/
theorem convert_request_body_empty_content_witness :
    convert_request_body (.cons "content" (.obj .nil) .nil) = (.nil, [])
    ∧ (convert_operation (.cons "requestBody" (.obj (.cons "content" (.obj .nil) .nil))
        (.cons "responses" (.obj .nil) .nil))).1.lookup "consumes" = none := by
  have h := convert_request_body_empty_content (.cons "content" (.obj .nil) .nil) (by rfl)
  exact ⟨h.1, (h.2 (.cons "requestBody" (.obj (.cons "content" (.obj .nil) .nil))
    (.cons "responses" (.obj .nil) .nil)) rfl).1⟩

theorem setDefault_absent (d : YamlDict) (k : String) (v : Yaml) (h : d.lookup k = none) :
    (d.setDefault k v).lookup k = some v := by
  simp [YamlDict.setDefault, h, lookup_insert_self]

theorem convert_security_scheme_xmsv_default (scheme : YamlDict)
    (h : scheme.lookup "x-ms-visibility" = none) :
    (convert_security_scheme scheme).lookup "x-ms-visibility" = some (.str "important") := by
  simp only [convert_security_scheme]
  apply setDefault_absent
  by_cases h1 : isStr (scheme.lookup "type") "http" = true
  · by_cases h2 : isStr (scheme.lookup "scheme") "basic" = true
    · rw [if_pos h1, if_pos h2, lookup_erase_ne _ _ _ (by decide),
        lookup_insert_ne _ _ _ _ (by decide)]
      exact h
    · by_cases h3 : isStr (scheme.lookup "scheme") "bearer" = true
      · rw [if_pos h1, if_neg h2, if_pos h3, lookup_erase_ne _ _ _ (by decide),
          lookup_insert_ne _ _ _ _ (by decide), lookup_insert_ne _ _ _ _ (by decide),
          lookup_insert_ne _ _ _ _ (by decide), lookup_insert_ne _ _ _ _ (by decide)]
        exact h
      · rw [if_pos h1, if_neg h2, if_neg h3]
        exact h
  · rw [if_neg h1]
    exact h

/-- C6: the Components Converter turns the security scheme
`{type: "http", scheme: "bearer"}` into `{type: "apiKey", name:
"Authorization", in: "header", x-original-http-scheme: "bearer",
x-ms-visibility: "important"}`, with the `scheme` key removed; and more
generally every converted security scheme receives
`x-ms-visibility: "important"` when no such key is already present. -/
theorem convert_components_bearer_scheme :
    (convert_components (.cons "securitySchemes"
        (.obj (.cons "auth" (.obj (.cons "type" (.str "http")
          (.cons "scheme" (.str "bearer") .nil))) .nil)) .nil)).lookup "securityDefinitions"
      = some (.obj (.cons "auth" (.obj (.cons "type" (.str "apiKey")
          (.cons "name" (.str "Authorization")
            (.cons "in" (.str "header")
              (.cons "x-original-http-scheme" (.str "bearer")
                (.cons "x-ms-visibility" (.str "important") .nil)))))) .nil))
    ∧ ∀ scheme : YamlDict, scheme.lookup "x-ms-visibility" = none →
        (convert_security_scheme scheme).lookup "x-ms-visibility" = some (.str "important") :=
  ⟨rfl, convert_security_scheme_xmsv_default⟩

/-- C6 witness: a scheme of another type (`oauth2`) with no visibility key
also receives the default visibility extension. -/
theorem convert_components_bearer_scheme_witness :
    (convert_security_scheme (.cons "type" (.str "oauth2") .nil)).lookup "x-ms-visibility"
      = some (.str "important") :=
  convert_components_bearer_scheme.2 (.cons "type" (.str "oauth2") .nil) rfl


theorem hasKey_insert_self (d : YamlDict) (k : String) (v : Yaml) :
    (d.insert k v).hasKey k = true := by
  rw [← mem_keys_iff_hasKey, mem_keys_insert]
  exact Or.inr rfl

theorem hasKey_insert_of (d : YamlDict) (k' k : String) (v : Yaml)
    (h : d.hasKey k = true) :
    (d.insert k' v).hasKey k = true := by
  rw [← mem_keys_iff_hasKey, mem_keys_insert]
  exact Or.inl ((mem_keys_iff_hasKey d k).mpr h)

theorem convert_schema_step_preserves_hasKey (acc : YamlDict) (k0 : String) (v0 : Yaml)
    (key : String) (h : acc.hasKey key = true) :
    (convert_schema_step acc k0 v0).hasKey key = true := by
  simp only [convert_schema_step]
  repeat' split
  all_goals first
    | exact hasKey_insert_of _ _ _ _ h
    | exact h

theorem convert_schema_entries_preserves_hasKey (e : YamlDict) (key : String) :
    ∀ acc : YamlDict, acc.hasKey key = true →
      (convert_schema_entries acc e).hasKey key = true := by
  induction e using dictInductionOn with
  | nil => intro acc h; exact h
  | cons k0 v0 rest ih =>
    intro acc h
    rw [convert_schema_entries_cons]
    exact ih _ (convert_schema_step_preserves_hasKey acc k0 v0 key h)

theorem convert_schema_step_x (acc : YamlDict) (k : String) (v : Yaml)
    (hx : strStartsWith k "x-" = true) :
    convert_schema_step acc k v = acc.insert k (convert_schema v) := by
  have h1 : k ≠ "$ref" := startsWith_x_ne hx (by rfl)
  have h2 : k ≠ "nullable" := startsWith_x_ne hx (by rfl)
  have h3 : k ≠ "deprecated" := startsWith_x_ne hx (by rfl)
  have h4 : k ≠ "discriminator" := startsWith_x_ne hx (by rfl)
  have h5 : k ≠ "example" := startsWith_x_ne hx (by rfl)
  have h6 : k ≠ "examples" := startsWith_x_ne hx (by rfl)
  have h7 : k ≠ "allOf" := startsWith_x_ne hx (by rfl)
  have h8 : k ≠ "anyOf" := startsWith_x_ne hx (by rfl)
  have h9 : k ≠ "oneOf" := startsWith_x_ne hx (by rfl)
  have h10 : k ≠ "not" := startsWith_x_ne hx (by rfl)
  have h11 : k ≠ "items" := startsWith_x_ne hx (by rfl)
  have h12 : k ≠ "additionalProperties" := startsWith_x_ne hx (by rfl)
  have h13 : k ≠ "properties" := startsWith_x_ne hx (by rfl)
  have h14 : k ≠ "patternProperties" := startsWith_x_ne hx (by rfl)
  have h15 : k ≠ "xml" := startsWith_x_ne hx (by rfl)
  simp only [convert_schema_step, if_neg h1, if_neg h2, if_neg h3, if_neg h4, if_neg h5,
    if_neg h6, if_neg (by simp [h7, h8, h9, h10]
      : ¬(k = "allOf" ∨ k = "anyOf" ∨ k = "oneOf" ∨ k = "not")),
    if_neg (by simp [h11, h12] : ¬(k = "items" ∨ k = "additionalProperties")),
    if_neg (by simp [h13, h14] : ¬(k = "properties" ∨ k = "patternProperties")),
    if_neg h15]

theorem convert_schema_step_lookup_other (acc : YamlDict) (k0 : String) (v0 : Yaml)
    (k : String) (hne : k0 ≠ k) (hxn : "x-nullable" ≠ k) (hxd : "x-deprecated" ≠ k)
    (hxdi : "x-discriminator" ≠ k) (hexm : "example" ≠ k) (hxe : "x-examples" ≠ k)
    (hxa : "x-allOf" ≠ k) (hxan : "x-anyOf" ≠ k) (hxo : "x-oneOf" ≠ k) (hxno : "x-not" ≠ k) :
    (convert_schema_step acc k0 v0).lookup k = acc.lookup k := by
  simp only [convert_schema_step]
  by_cases c1 : k0 = "$ref"
  · rw [if_pos c1]; exact lookup_insert_ne _ _ _ _ hne
  rw [if_neg c1]
  by_cases c2 : k0 = "nullable"
  · rw [if_pos c2]
    by_cases ct : truthy v0 = true
    · rw [if_pos ct]; exact lookup_insert_ne _ _ _ _ hxn
    · rw [if_neg ct]
  rw [if_neg c2]
  by_cases c3 : k0 = "deprecated"
  · rw [if_pos c3]; exact lookup_insert_ne _ _ _ _ hxd
  rw [if_neg c3]
  by_cases c4 : k0 = "discriminator"
  · rw [if_pos c4]; exact lookup_insert_ne _ _ _ _ hxdi
  rw [if_neg c4]
  by_cases c5 : k0 = "example"
  · rw [if_pos c5]; exact lookup_insert_ne _ _ _ _ hexm
  rw [if_neg c5]
  by_cases c6 : k0 = "examples"
  · rw [if_pos c6]; exact lookup_insert_ne _ _ _ _ hxe
  rw [if_neg c6]
  by_cases c7 : k0 = "allOf" ∨ k0 = "anyOf" ∨ k0 = "oneOf" ∨ k0 = "not"
  · rw [if_pos c7]
    rcases c7 with h | h | h | h <;> subst h
    · exact lookup_insert_ne _ _ _ _ hxa
    · exact lookup_insert_ne _ _ _ _ hxan
    · exact lookup_insert_ne _ _ _ _ hxo
    · exact lookup_insert_ne _ _ _ _ hxno
  rw [if_neg c7]
  by_cases c8 : k0 = "items" ∨ k0 = "additionalProperties"
  · rw [if_pos c8]; exact lookup_insert_ne _ _ _ _ hne
  rw [if_neg c8]
  by_cases c9 : k0 = "properties" ∨ k0 = "patternProperties"
  · rw [if_pos c9]
    cases v0 <;> exact lookup_insert_ne _ _ _ _ hne
  rw [if_neg c9]
  by_cases c10 : k0 = "xml"
  · rw [if_pos c10]; exact lookup_insert_ne _ _ _ _ hne
  rw [if_neg c10]
  exact lookup_insert_ne _ _ _ _ hne

theorem convert_schema_entries_lookup_notkey (rest : YamlDict) (k : String)
    (hxn : "x-nullable" ≠ k) (hxd : "x-deprecated" ≠ k) (hxdi : "x-discriminator" ≠ k)
    (hexm : "example" ≠ k) (hxe : "x-examples" ≠ k) (hxa : "x-allOf" ≠ k)
    (hxan : "x-anyOf" ≠ k) (hxo : "x-oneOf" ≠ k) (hxno : "x-not" ≠ k)
    (hnk : rest.hasKey k = false) :
    ∀ acc : YamlDict, (convert_schema_entries acc rest).lookup k = acc.lookup k := by
  induction rest using dictInductionOn with
  | nil => intro acc; rfl
  | cons k0 v0 tail ih =>
    intro acc
    simp only [YamlDict.hasKey, Bool.or_eq_false_iff] at hnk
    have hne : k0 ≠ k := by
      intro he; rw [he] at hnk; simp at hnk
    rw [convert_schema_entries_cons, ih hnk.2,
      convert_schema_step_lookup_other acc k0 v0 k hne hxn hxd hxdi hexm hxe hxa hxan hxo hxno]

theorem contains_false_ne {l : List String} {k : String} (h : l.contains k = false)
    {w : String} (hw : l.contains w = true) : k ≠ w :=
  fun he => Bool.noConfusion ((he ▸ h).symm.trans hw)

theorem convert_schema_entries_lookup_x (e : YamlDict) (k : String) (v : Yaml)
    (hx : strStartsWith k "x-" = true) (hnd : keysNodup e)
    (ht : renamedTargets.contains k = false) (hl : e.lookup k = some v) :
    ∀ acc : YamlDict, (convert_schema_entries acc e).lookup k = some (convert_schema v) := by
  have hxn := contains_false_ne ht (by decide : renamedTargets.contains "x-nullable" = true)
  have hxd := contains_false_ne ht (by decide : renamedTargets.contains "x-deprecated" = true)
  have hxdi := contains_false_ne ht
    (by decide : renamedTargets.contains "x-discriminator" = true)
  have hxe := contains_false_ne ht (by decide : renamedTargets.contains "x-examples" = true)
  have hxa := contains_false_ne ht (by decide : renamedTargets.contains "x-allOf" = true)
  have hxan := contains_false_ne ht (by decide : renamedTargets.contains "x-anyOf" = true)
  have hxo := contains_false_ne ht (by decide : renamedTargets.contains "x-oneOf" = true)
  have hxno := contains_false_ne ht (by decide : renamedTargets.contains "x-not" = true)
  have hexm : "example" ≠ k := Ne.symm (startsWith_x_ne hx (by rfl))
  induction e using dictInductionOn with
  | nil => simp [YamlDict.lookup] at hl
  | cons k0 v0 rest ih =>
    intro acc
    rw [keysNodup_cons_iff] at hnd
    by_cases h0 : k0 = k
    · subst h0
      simp [YamlDict.lookup] at hl
      subst hl
      rw [convert_schema_entries_cons, convert_schema_step_x acc k0 v0 hx,
        convert_schema_entries_lookup_notkey rest k0 (Ne.symm hxn) (Ne.symm hxd)
          (Ne.symm hxdi) hexm (Ne.symm hxe) (Ne.symm hxa) (Ne.symm hxan) (Ne.symm hxo)
          (Ne.symm hxno) hnd.1, lookup_insert_self]
    · simp only [YamlDict.lookup, if_neg h0] at hl
      rw [convert_schema_entries_cons]
      exact ih hnd.2 hl _

theorem hasKey_erase_ne (d : YamlDict) (k' k : String) (h : k' ≠ k) :
    (d.erase k').hasKey k = d.hasKey k := by
  rw [hasKey_eq_isSome_lookup, hasKey_eq_isSome_lookup, lookup_erase_ne d k' k h]

theorem lookup_setDefault_some (d : YamlDict) (k' k : String) (v w : Yaml)
    (h : d.lookup k = some w) : (d.setDefault k' v).lookup k = some w := by
  rw [YamlDict.setDefault]
  by_cases hp : (d.lookup k').isSome = true
  · rw [if_pos hp]
    exact h
  · rw [if_neg hp]
    by_cases hk : k' = k
    · subst hk
      rw [h] at hp
      exact absurd rfl hp
    · rw [lookup_insert_ne d k' k v hk]
      exact h

theorem hasKey_setDefault_of (d : YamlDict) (k' k : String) (v : Yaml)
    (h : d.hasKey k = true) : (d.setDefault k' v).hasKey k = true := by
  rw [YamlDict.setDefault]
  by_cases hp : (d.lookup k').isSome = true
  · rw [if_pos hp]
    exact h
  · rw [if_neg hp]
    exact hasKey_insert_of d k' k v h

theorem documentExtensions_eq_copyExtensions (src : YamlDict) :
    ∀ acc, documentExtensions acc src = copyExtensions acc src := by
  induction src using dictInductionOn with
  | nil =>
    intro acc
    rfl
  | cons k v rest ih =>
    intro acc
    simp only [documentExtensions, copyExtensions]
    exact ih _

theorem hasKey_condInsert_of (c : Prop) [Decidable c] (d : YamlDict) (k' k : String)
    (v : Yaml) (h : d.hasKey k = true) :
    (if c then d.insert k' v else d).hasKey k = true := by
  by_cases hc : c
  · rw [if_pos hc]
    exact hasKey_insert_of d k' k v h
  · rw [if_neg hc]
    exact h

theorem lookup_condInsert_guard (c : Prop) [Decidable c] (d : YamlDict) (k' k : String)
    (v : Yaml) (h : k' ≠ k ∨ ¬ c) :
    (if c then d.insert k' v else d).lookup k = d.lookup k := by
  rcases h with h | h
  · exact lookup_condInsert_ne c d k' k v h
  · rw [if_neg h]

theorem operation_ext_loop_preserves_hasKey (src : YamlDict) (acc : YamlDict) (k : String)
    (h : acc.hasKey k = true) : (operation_ext_loop acc src).hasKey k = true := by
  induction src using dictInductionOn generalizing acc with
  | nil => exact h
  | cons k0 v0 rest ih =>
    simp only [operation_ext_loop]
    exact ih _ (hasKey_condInsert_of _ _ _ _ _
      (hasKey_condInsert_of _ _ _ _ _ (hasKey_condInsert_of _ _ _ _ _ h)))

theorem operation_ext_loop_hasKey_of_mem (src : YamlDict) (acc : YamlDict) (k : String)
    (v : Yaml) (hx : strStartsWith k "x-" = true) (hl : src.lookup k = some v) :
    (operation_ext_loop acc src).hasKey k = true := by
  induction src using dictInductionOn generalizing acc with
  | nil => simp [YamlDict.lookup] at hl
  | cons k0 v0 rest ih =>
    simp only [operation_ext_loop]
    by_cases h0 : k0 = k
    · subst h0
      apply operation_ext_loop_preserves_hasKey
      apply hasKey_condInsert_of
      apply hasKey_condInsert_of
      rw [if_pos hx]
      exact hasKey_insert_self _ _ _
    · simp only [YamlDict.lookup, if_neg h0] at hl
      exact ih _ hl

theorem operation_ext_loop_lookup_absent (src : YamlDict) (acc : YamlDict) (k : String)
    (hc : k = "x-callbacks" → src.hasKey "callbacks" = false)
    (hs : k = "x-servers" → src.hasKey "servers" = false)
    (h : src.hasKey k = false) :
    (operation_ext_loop acc src).lookup k = acc.lookup k := by
  induction src using dictInductionOn generalizing acc with
  | nil => rfl
  | cons k0 v0 rest ih =>
    simp only [YamlDict.hasKey, Bool.or_eq_false_iff, decide_eq_false_iff_not] at h
    have hcR : k = "x-callbacks" → rest.hasKey "callbacks" = false := by
      intro e
      have h2 := hc e
      simp only [YamlDict.hasKey, Bool.or_eq_false_iff] at h2
      exact h2.2
    have hsR : k = "x-servers" → rest.hasKey "servers" = false := by
      intro e
      have h2 := hs e
      simp only [YamlDict.hasKey, Bool.or_eq_false_iff] at h2
      exact h2.2
    have g2 : ("x-callbacks" : String) ≠ k ∨ ¬ (k0 = "callbacks") := by
      by_cases hkc : k = "x-callbacks"
      · refine Or.inr fun e => ?_
        have h2 := hc hkc
        rw [e] at h2
        simp [YamlDict.hasKey] at h2
      · exact Or.inl fun e => hkc e.symm
    have g3 : ("x-servers" : String) ≠ k ∨ ¬ (k0 = "servers") := by
      by_cases hks : k = "x-servers"
      · refine Or.inr fun e => ?_
        have h2 := hs hks
        rw [e] at h2
        simp [YamlDict.hasKey] at h2
      · exact Or.inl fun e => hks e.symm
    simp only [operation_ext_loop]
    rw [ih _ hcR hsR h.2, lookup_condInsert_guard _ _ _ _ _ g3,
      lookup_condInsert_guard _ _ _ _ _ g2, lookup_condInsert_ne _ _ _ _ _ h.1]

theorem operation_ext_loop_lookup_of_mem (src : YamlDict) (acc : YamlDict) (k : String)
    (v : Yaml) (hx : strStartsWith k "x-" = true) (hnd : keysNodup src)
    (hc : k = "x-callbacks" → src.hasKey "callbacks" = false)
    (hs : k = "x-servers" → src.hasKey "servers" = false)
    (hl : src.lookup k = some v) :
    (operation_ext_loop acc src).lookup k = some v := by
  induction src using dictInductionOn generalizing acc with
  | nil => simp [YamlDict.lookup] at hl
  | cons k0 v0 rest ih =>
    rw [keysNodup_cons_iff] at hnd
    have hcR : k = "x-callbacks" → rest.hasKey "callbacks" = false := by
      intro e
      have h2 := hc e
      simp only [YamlDict.hasKey, Bool.or_eq_false_iff] at h2
      exact h2.2
    have hsR : k = "x-servers" → rest.hasKey "servers" = false := by
      intro e
      have h2 := hs e
      simp only [YamlDict.hasKey, Bool.or_eq_false_iff] at h2
      exact h2.2
    simp only [operation_ext_loop]
    by_cases h0 : k0 = k
    · subst h0
      simp [YamlDict.lookup] at hl
      subst hl
      have hserv : k0 ≠ "servers" := startsWith_x_ne hx (by decide)
      have hcall : k0 ≠ "callbacks" := startsWith_x_ne hx (by decide)
      rw [operation_ext_loop_lookup_absent rest _ k0 hcR hsR hnd.1,
        lookup_condInsert_guard _ _ _ _ _ (Or.inr hserv),
        lookup_condInsert_guard _ _ _ _ _ (Or.inr hcall),
        if_pos hx, lookup_insert_self]
    · simp only [YamlDict.lookup, if_neg h0] at hl
      exact ih _ hnd.2 hcR hsR hl

theorem path_item_ext_loop_preserves_hasKey (src : YamlDict) (acc : YamlDict) (k : String)
    (h : acc.hasKey k = true) : (path_item_ext_loop acc src).hasKey k = true := by
  induction src using dictInductionOn generalizing acc with
  | nil => exact h
  | cons k0 v0 rest ih =>
    simp only [path_item_ext_loop]
    exact ih _ (hasKey_condInsert_of _ _ _ _ _ (hasKey_condInsert_of _ _ _ _ _ h))

theorem path_item_ext_loop_hasKey_of_mem (src : YamlDict) (acc : YamlDict) (k : String)
    (v : Yaml) (hx : strStartsWith k "x-" = true) (hl : src.lookup k = some v) :
    (path_item_ext_loop acc src).hasKey k = true := by
  induction src using dictInductionOn generalizing acc with
  | nil => simp [YamlDict.lookup] at hl
  | cons k0 v0 rest ih =>
    simp only [path_item_ext_loop]
    by_cases h0 : k0 = k
    · subst h0
      apply path_item_ext_loop_preserves_hasKey
      apply hasKey_condInsert_of
      rw [if_pos hx]
      exact hasKey_insert_self _ _ _
    · simp only [YamlDict.lookup, if_neg h0] at hl
      exact ih _ hl

theorem path_item_ext_loop_lookup_absent (src : YamlDict) (acc : YamlDict) (k : String)
    (hs : k = "x-servers" → src.hasKey "servers" = false)
    (h : src.hasKey k = false) :
    (path_item_ext_loop acc src).lookup k = acc.lookup k := by
  induction src using dictInductionOn generalizing acc with
  | nil => rfl
  | cons k0 v0 rest ih =>
    simp only [YamlDict.hasKey, Bool.or_eq_false_iff, decide_eq_false_iff_not] at h
    have hsR : k = "x-servers" → rest.hasKey "servers" = false := by
      intro e
      have h2 := hs e
      simp only [YamlDict.hasKey, Bool.or_eq_false_iff] at h2
      exact h2.2
    have g3 : ("x-servers" : String) ≠ k ∨ ¬ (k0 = "servers") := by
      by_cases hks : k = "x-servers"
      · refine Or.inr fun e => ?_
        have h2 := hs hks
        rw [e] at h2
        simp [YamlDict.hasKey] at h2
      · exact Or.inl fun e => hks e.symm
    simp only [path_item_ext_loop]
    rw [ih _ hsR h.2, lookup_condInsert_guard _ _ _ _ _ g3,
      lookup_condInsert_ne _ _ _ _ _ h.1]

theorem path_item_ext_loop_lookup_of_mem (src : YamlDict) (acc : YamlDict) (k : String)
    (v : Yaml) (hx : strStartsWith k "x-" = true) (hnd : keysNodup src)
    (hs : k = "x-servers" → src.hasKey "servers" = false)
    (hl : src.lookup k = some v) :
    (path_item_ext_loop acc src).lookup k = some v := by
  induction src using dictInductionOn generalizing acc with
  | nil => simp [YamlDict.lookup] at hl
  | cons k0 v0 rest ih =>
    rw [keysNodup_cons_iff] at hnd
    have hsR : k = "x-servers" → rest.hasKey "servers" = false := by
      intro e
      have h2 := hs e
      simp only [YamlDict.hasKey, Bool.or_eq_false_iff] at h2
      exact h2.2
    simp only [path_item_ext_loop]
    by_cases h0 : k0 = k
    · subst h0
      simp [YamlDict.lookup] at hl
      subst hl
      have hserv : k0 ≠ "servers" := startsWith_x_ne hx (by decide)
      rw [path_item_ext_loop_lookup_absent rest _ k0 hsR hnd.1,
        lookup_condInsert_guard _ _ _ _ _ (Or.inr hserv),
        if_pos hx, lookup_insert_self]
    · simp only [YamlDict.lookup, if_neg h0] at hl
      exact ih _ hnd.2 hsR hl

theorem convert_security_scheme_lookup_x (sc : YamlDict) (k : String) (v : Yaml)
    (hx : strStartsWith k "x-" = true) (hne : k ≠ "x-original-http-scheme")
    (hl : sc.lookup k = some v) :
    (convert_security_scheme sc).lookup k = some v := by
  have hscheme : ("scheme" : String) ≠ k := (startsWith_x_ne hx (by decide)).symm
  have htype : ("type" : String) ≠ k := (startsWith_x_ne hx (by decide)).symm
  have hname : ("name" : String) ≠ k := (startsWith_x_ne hx (by decide)).symm
  have hin : ("in" : String) ≠ k := (startsWith_x_ne hx (by decide)).symm
  simp only [convert_security_scheme]
  apply lookup_setDefault_some
  by_cases h1 : isStr (sc.lookup "type") "http" = true
  · rw [if_pos h1]
    by_cases h2 : isStr (sc.lookup "scheme") "basic" = true
    · rw [if_pos h2, lookup_erase_ne _ _ _ hscheme, lookup_insert_ne _ _ _ _ htype]
      exact hl
    · rw [if_neg h2]
      by_cases h3 : isStr (sc.lookup "scheme") "bearer" = true
      · rw [if_pos h3, lookup_erase_ne _ _ _ hscheme,
          lookup_insert_ne _ _ _ _ (Ne.symm hne), lookup_insert_ne _ _ _ _ hin,
          lookup_insert_ne _ _ _ _ hname, lookup_insert_ne _ _ _ _ htype]
        exact hl
      · rw [if_neg h3]
        exact hl
  · rw [if_neg h1]
    exact hl

theorem convert_security_scheme_hasKey_x (sc : YamlDict) (k : String) (v : Yaml)
    (hx : strStartsWith k "x-" = true) (hl : sc.lookup k = some v) :
    (convert_security_scheme sc).hasKey k = true := by
  have hk : sc.hasKey k = true := by
    rw [hasKey_eq_isSome_lookup, hl]
    rfl
  by_cases hne : k = "x-original-http-scheme"
  · subst hne
    simp only [convert_security_scheme]
    apply hasKey_setDefault_of
    by_cases h1 : isStr (sc.lookup "type") "http" = true
    · rw [if_pos h1]
      by_cases h2 : isStr (sc.lookup "scheme") "basic" = true
      · rw [if_pos h2, hasKey_erase_ne _ _ _ (by decide)]
        exact hasKey_insert_of _ _ _ _ hk
      · rw [if_neg h2]
        by_cases h3 : isStr (sc.lookup "scheme") "bearer" = true
        · rw [if_pos h3, hasKey_erase_ne _ _ _ (by decide)]
          exact hasKey_insert_self _ _ _
        · rw [if_neg h3]
          exact hk
    · rw [if_neg h1]
      exact hk
  · rw [hasKey_eq_isSome_lookup, convert_security_scheme_lookup_x sc k v hx hne hl]
    rfl

/-- C2 (amended): vendor-extension keys are never dropped from any node the
converter emits, and on every node type except schema nodes the value is
copied unchanged, with two relocation exceptions.  In detail — document,
path-item, operation, parameter, request-body (when a non-empty `content`
makes the converter emit a body parameter at all), response, header and
security-scheme nodes keep every input `x-` key with its value unchanged,
except that on operation (resp. path-item) nodes a sibling `callbacks` /
`servers` key relocating onto `x-callbacks` / `x-servers` may overwrite that
extension's value (preserved whenever no such sibling is present), and on
`http`/`bearer` security schemes the key `x-original-http-scheme` is
overwritten with `"bearer"` (any other `x-` key is unchanged).  On schema
nodes every input `x-` key still appears in the output, but its value is
itself recursively schema-transformed rather than copied verbatim (hence
unchanged exactly when the transformation fixes it), and it equals the
transformed input value provided no sibling key of the node renames onto
the same `x-` name (`nullable`/`deprecated`/`discriminator`/`examples`/
`allOf`/`anyOf`/`oneOf`/`not` renaming onto `x-nullable` … `x-not`). -/
theorem vendor_extension_passthrough :
    (∀ (spec : YamlDict) (k : String) (v : Yaml), strStartsWith k "x-" = true →
      keysNodup spec → spec.lookup k = some v →
      (convert_openapi_to_swagger spec).lookup k = some v)
    ∧ (∀ (path_item : YamlDict) (k : String) (v : Yaml), strStartsWith k "x-" = true →
      keysNodup path_item → path_item.lookup k = some v →
      (convert_path_item path_item).hasKey k = true
      ∧ ((k = "x-servers" → path_item.hasKey "servers" = false) →
        (convert_path_item path_item).lookup k = some v))
    ∧ (∀ (operation : YamlDict) (k : String) (v : Yaml), strStartsWith k "x-" = true →
      keysNodup operation → operation.lookup k = some v →
      (convert_operation operation).1.hasKey k = true
      ∧ ((k = "x-callbacks" → operation.hasKey "callbacks" = false) →
        (k = "x-servers" → operation.hasKey "servers" = false) →
        (convert_operation operation).1.lookup k = some v))
    ∧ (∀ (parameter : YamlDict) (k : String) (v : Yaml), strStartsWith k "x-" = true →
      keysNodup parameter → parameter.lookup k = some v →
      (convert_parameter parameter).lookup k = some v)
    ∧ (∀ (request_body : YamlDict) (mt : String) (mo : Yaml) (crest : YamlDict)
        (k : String) (v : Yaml), strStartsWith k "x-" = true →
      keysNodup request_body →
      request_body.lookup "content" = some (.obj (.cons mt mo crest)) →
      request_body.lookup k = some v →
      (convert_request_body request_body).1.lookup k = some v)
    ∧ (∀ (response : YamlDict) (k : String) (v : Yaml), strStartsWith k "x-" = true →
      keysNodup response → response.lookup k = some v →
      (convert_response response).1.lookup k = some v)
    ∧ (∀ (header : YamlDict) (k : String) (v : Yaml), strStartsWith k "x-" = true →
      keysNodup header → header.lookup k = some v →
      (convert_header header).lookup k = some v)
    ∧ (∀ (scheme : YamlDict) (k : String) (v : Yaml), strStartsWith k "x-" = true →
      scheme.lookup k = some v →
      (convert_security_scheme scheme).hasKey k = true
      ∧ (k ≠ "x-original-http-scheme" →
        (convert_security_scheme scheme).lookup k = some v))
    ∧ (∀ (entries : YamlDict) (k : String) (v : Yaml), strStartsWith k "x-" = true →
      entries.lookup k = some v →
      (convert_schema (.obj entries)).asObj.hasKey k = true)
    ∧ (∀ (entries : YamlDict) (k : String) (v : Yaml), strStartsWith k "x-" = true →
      keysNodup entries → renamedTargets.contains k = false →
      entries.lookup k = some v →
      (convert_schema (.obj entries)).get k = some (convert_schema v)) := by
  refine ⟨?_, ?_, ?_, ?_, ?_, ?_, ?_, ?_, ?_, ?_⟩
  · intro spec k v hx hnd hl
    simp only [convert_openapi_to_swagger]
    rw [documentExtensions_eq_copyExtensions]
    exact copyExtensions_lookup_of_mem _ _ _ _ hx hnd hl
  · intro path_item k v hx hnd hl
    constructor
    · simp only [convert_path_item]
      exact path_item_ext_loop_hasKey_of_mem _ _ _ _ hx hl
    · intro hsv
      simp only [convert_path_item]
      exact path_item_ext_loop_lookup_of_mem _ _ _ _ hx hnd hsv hl
  · intro operation k v hx hnd hl
    constructor
    · simp only [convert_operation]
      exact operation_ext_loop_hasKey_of_mem _ _ _ _ hx hl
    · intro hcb hsv
      simp only [convert_operation]
      exact operation_ext_loop_lookup_of_mem _ _ _ _ hx hnd hcb hsv hl
  · intro parameter k v hx hnd hl
    simp only [convert_parameter]
    split
    · exact copyExtensions_lookup_of_mem _ _ _ _ hx hnd hl
    · exact copyExtensions_lookup_of_mem _ _ _ _ hx hnd hl
  · intro request_body mt mo crest k v hx hnd hcon hl
    simp only [convert_request_body, hcon, Option.getD_some]
    exact copyExtensions_lookup_of_mem _ _ _ _ hx hnd hl
  · intro response k v hx hnd hl
    simp only [convert_response]
    split <;> exact copyExtensions_lookup_of_mem _ _ _ _ hx hnd hl
  · intro header k v hx hnd hl
    simp only [convert_header]
    exact copyExtensions_lookup_of_mem _ _ _ _ hx hnd hl
  · intro scheme k v hx hl
    exact ⟨convert_security_scheme_hasKey_x scheme k v hx hl,
      fun hne => convert_security_scheme_lookup_x scheme k v hx hne hl⟩
  · intro entries k v hx hl
    have hmain : ∀ acc : YamlDict, acc.hasKey k = true ∨ entries.lookup k = some v →
        (convert_schema_entries acc entries).hasKey k = true := by
      clear hl
      induction entries using dictInductionOn with
      | nil =>
        intro acc h
        rcases h with h | h
        · exact h
        · simp [YamlDict.lookup] at h
      | cons k0 v0 rest ih =>
        intro acc h
        rw [convert_schema_entries_cons]
        rcases h with h | h
        · exact ih _ (Or.inl (convert_schema_step_preserves_hasKey acc k0 v0 k h))
        · by_cases h0 : k0 = k
          · subst h0
            apply ih _ (Or.inl ?_)
            rw [convert_schema_step_x acc k0 v0 hx]
            exact hasKey_insert_self _ _ _
          · simp only [YamlDict.lookup, if_neg h0] at h
            exact ih _ (Or.inr h)
    simp only [convert_schema, Yaml.asObj]
    exact hmain .nil (Or.inr hl)
  · intro entries k v hx hnd ht hl
    simp only [convert_schema, Yaml.get, Yaml.asObj]
    exact convert_schema_entries_lookup_x entries k v hx hnd ht hl .nil

/-- C2 counterexample: three inputs on which an `x-` key's value is changed.
A schema node with the single vendor-extension key `x-meta` whose value is
the mapping `{nullable: true}` keeps the key, but the value is recursively
transformed to `{x-nullable: true}` — observably different from the input
value.  An operation whose `x-callbacks` extension is followed by a sibling
`callbacks` key has the extension's value overwritten by the relocated
sibling (likewise `x-servers` / `servers` on a path item).  An
`http`/`bearer` security scheme's `x-original-http-scheme` key is
overwritten with `"bearer"`. -/
theorem vendor_extension_value_changed :
    (YamlDict.cons "x-meta" (.obj (.cons "nullable" (.bool true) .nil)) .nil).lookup "x-meta"
      = some (.obj (.cons "nullable" (.bool true) .nil))
    ∧ (convert_schema (.obj (.cons "x-meta"
        (.obj (.cons "nullable" (.bool true) .nil)) .nil))).get "x-meta"
      = some (.obj (.cons "x-nullable" (.bool true) .nil))
    ∧ (YamlDict.cons "nullable" (.bool true) .nil).hasKey "nullable" = true
    ∧ (YamlDict.cons "x-nullable" (.bool true) .nil).hasKey "nullable" = false
    ∧ (YamlDict.cons "x-callbacks" (.num 1) (.cons "callbacks" (.num 2) .nil)).lookup
        "x-callbacks" = some (.num 1)
    ∧ (convert_operation (.cons "x-callbacks" (.num 1)
        (.cons "callbacks" (.num 2) .nil))).1.lookup "x-callbacks" = some (.num 2)
    ∧ (convert_path_item (.cons "x-servers" (.num 1)
        (.cons "servers" (.num 2) .nil))).lookup "x-servers" = some (.num 2)
    ∧ (convert_security_scheme (.cons "type" (.str "http") (.cons "scheme" (.str "bearer")
        (.cons "x-original-http-scheme" (.num 7) .nil)))).lookup "x-original-http-scheme"
      = some (.str "bearer") :=
  ⟨rfl, rfl, rfl, rfl, rfl, rfl, rfl, rfl⟩

/-- C2 witness: a concrete node of each node type carrying a vendor
extension with a scalar (hence transformation-fixed) value keeps the key
and the value. -/
theorem vendor_extension_passthrough_witness :
    (convert_openapi_to_swagger (.cons "x-a" (.num 1) .nil)).lookup "x-a" = some (.num 1)
    ∧ (convert_path_item (.cons "x-a" (.num 1) .nil)).lookup "x-a" = some (.num 1)
    ∧ (convert_operation (.cons "x-a" (.num 1) .nil)).1.lookup "x-a" = some (.num 1)
    ∧ (convert_parameter (.cons "in" (.str "query") (.cons "x-foo" (.num 7) .nil))).lookup
        "x-foo" = some (.num 7)
    ∧ (convert_request_body (.cons "content"
        (.obj (.cons "application/json" (.obj .nil) .nil))
        (.cons "x-a" (.num 1) .nil))).1.lookup "x-a" = some (.num 1)
    ∧ (convert_response (.cons "x-a" (.num 1) .nil)).1.lookup "x-a" = some (.num 1)
    ∧ (convert_header (.cons "x-a" (.num 1) .nil)).lookup "x-a" = some (.num 1)
    ∧ (convert_security_scheme (.cons "x-a" (.num 1) .nil)).lookup "x-a" = some (.num 1)
    ∧ (convert_schema (.obj (.cons "x-foo" (.num 7) .nil))).asObj.hasKey "x-foo" = true
    ∧ (convert_schema (.obj (.cons "x-foo" (.num 7) .nil))).get "x-foo" = some (.num 7) := by
  refine ⟨?_, ?_, ?_, ?_, ?_, ?_, ?_, ?_, ?_, ?_⟩
  · exact vendor_extension_passthrough.1 (.cons "x-a" (.num 1) .nil) "x-a" (.num 1)
      rfl (by decide) rfl
  · exact (vendor_extension_passthrough.2.1 (.cons "x-a" (.num 1) .nil) "x-a" (.num 1)
      rfl (by decide) rfl).2 (fun _ => by decide)
  · exact (vendor_extension_passthrough.2.2.1 (.cons "x-a" (.num 1) .nil) "x-a" (.num 1)
      rfl (by decide) rfl).2 (fun _ => by decide) (fun _ => by decide)
  · exact vendor_extension_passthrough.2.2.2.1
      (.cons "in" (.str "query") (.cons "x-foo" (.num 7) .nil)) "x-foo" (.num 7)
      rfl (by decide) rfl
  · exact vendor_extension_passthrough.2.2.2.2.1
      (.cons "content" (.obj (.cons "application/json" (.obj .nil) .nil))
        (.cons "x-a" (.num 1) .nil))
      "application/json" (.obj .nil) .nil "x-a" (.num 1) rfl (by decide) rfl rfl
  · exact vendor_extension_passthrough.2.2.2.2.2.1 (.cons "x-a" (.num 1) .nil) "x-a"
      (.num 1) rfl (by decide) rfl
  · exact vendor_extension_passthrough.2.2.2.2.2.2.1 (.cons "x-a" (.num 1) .nil) "x-a"
      (.num 1) rfl (by decide) rfl
  · exact (vendor_extension_passthrough.2.2.2.2.2.2.2.1 (.cons "x-a" (.num 1) .nil) "x-a"
      (.num 1) rfl rfl).2 (by decide)
  · exact vendor_extension_passthrough.2.2.2.2.2.2.2.2.1 (.cons "x-foo" (.num 7) .nil)
      "x-foo" (.num 7) rfl rfl
  · exact vendor_extension_passthrough.2.2.2.2.2.2.2.2.2 (.cons "x-foo" (.num 7) .nil)
      "x-foo" (.num 7) rfl (by decide) (by decide) rfl

theorem prefOf_append_self (p t : List Char) : prefOf p (p ++ t) = true := by
  induction p with
  | nil => rfl
  | cons a p' ih => simp [prefOf, ih]

theorem prefOf_take (p s : List Char) (h : prefOf p s = true) :
    ∀ n, n ≤ p.length → s.take n = p.take n := by
  induction p generalizing s with
  | nil =>
    intro n hn
    simp at hn
    subst hn
    rfl
  | cons a p' ih =>
    intro n hn
    cases s with
    | nil => simp [prefOf] at h
    | cons b s' =>
      simp only [prefOf, Bool.and_eq_true, decide_eq_true_eq] at h
      cases n with
      | zero => rfl
      | succ m =>
        simp only [List.take_succ_cons, h.1]
        rw [ih s' h.2 m (by simpa using hn)]

theorem prefOf_false_of_take_ne (p q : List Char) (n : Nat) (hp : n ≤ p.length)
    (hq : n ≤ q.length) (hne : p.take n ≠ q.take n) :
    ∀ rest, prefOf p (q ++ rest) = false := by
  intro rest
  by_contra hc
  rw [Bool.not_eq_false] at hc
  have h1 := prefOf_take p (q ++ rest) hc n hp
  rw [List.take_append_of_le_length hq] at h1
  exact hne h1.symm

theorem replaceAllFuel_no_seg (p q s : List Char) (h : hasSeg p s = false) :
    ∀ fuel, replaceAllFuel p q fuel s = s := by
  induction s with
  | nil => intro fuel; cases fuel <;> rfl
  | cons c rest ih =>
    intro fuel
    simp only [hasSeg, Bool.or_eq_false_iff] at h
    cases fuel with
    | zero => rfl
    | succ m =>
      simp only [replaceAllFuel, h.1, Bool.false_and, Bool.false_eq_true, if_false]
      rw [ih h.2]

theorem replaceAllFuel_leading (p q rest : List Char) (hp : p ≠ [])
    (hseg : hasSeg p rest = false) (fuel : Nat) :
    replaceAllFuel p q (fuel + 1) (p ++ rest) = q ++ rest := by
  cases p with
  | nil => exact absurd rfl hp
  | cons a p' =>
    have hpre : (prefOf (a :: p') ((a :: p') ++ rest) && !(a :: p').isEmpty) = true := by
      simp [prefOf, prefOf_append_self]
    rw [show ((a :: p') ++ rest : List Char) = a :: (p' ++ rest) from rfl]
    simp only [replaceAllFuel]
    rw [if_pos (by simpa using hpre)]
    have hdrop : List.drop (a :: p').length (a :: (p' ++ rest)) = rest := by
      rw [show (a : Char) :: (p' ++ rest) = (a :: p') ++ rest from rfl]
      exact List.drop_left _ _
    rw [hdrop, replaceAllFuel_no_seg (a :: p') q rest hseg]

theorem strReplace_leading (p q : String) (rest : List Char) (hp : p.data ≠ [])
    (hseg : hasSeg p.data rest = false) :
    strReplace ⟨p.data ++ rest⟩ p q = ⟨q.data ++ rest⟩ := by
  simp only [strReplace]
  congr 1
  have hlen : (p.data ++ rest).length = (p.data.length - 1 + rest.length) + 1 := by
    rw [List.length_append]
    have : 1 ≤ p.data.length := by
      cases hd : p.data with
      | nil => exact absurd hd hp
      | cons a t => simp
    omega
  rw [hlen]
  exact replaceAllFuel_leading p.data q.data rest hp hseg _

theorem convert_ref_schemas (rest : List Char)
    (hseg : hasSeg "#/components/schemas/".data rest = false) :
    convert_ref ⟨"#/components/schemas/".data ++ rest⟩ = ⟨"#/definitions/".data ++ rest⟩ := by
  have hc1 : strStartsWith ⟨"#/components/schemas/".data ++ rest⟩ "#/components/schemas/"
      = true := prefOf_append_self _ _
  simp only [convert_ref]
  rw [if_pos hc1]
  exact strReplace_leading _ _ rest (by decide) hseg

theorem convert_ref_parameters (rest : List Char)
    (hseg : hasSeg "#/components/parameters/".data rest = false) :
    convert_ref ⟨"#/components/parameters/".data ++ rest⟩ = ⟨"#/parameters/".data ++ rest⟩ := by
  have hn1 : ¬(strStartsWith ⟨"#/components/parameters/".data ++ rest⟩
      "#/components/schemas/" = true) :=
    fun hc => Bool.noConfusion ((prefOf_false_of_take_ne "#/components/schemas/".data
      "#/components/parameters/".data 14 (by decide) (by decide) (by decide) rest).symm.trans hc)
  have hc : strStartsWith ⟨"#/components/parameters/".data ++ rest⟩
      "#/components/parameters/" = true := prefOf_append_self _ _
  simp only [convert_ref]
  rw [if_neg hn1, if_pos hc]
  exact strReplace_leading _ _ rest (by decide) hseg

theorem convert_ref_responses (rest : List Char)
    (hseg : hasSeg "#/components/responses/".data rest = false) :
    convert_ref ⟨"#/components/responses/".data ++ rest⟩ = ⟨"#/responses/".data ++ rest⟩ := by
  have hn1 : ¬(strStartsWith ⟨"#/components/responses/".data ++ rest⟩
      "#/components/schemas/" = true) :=
    fun hc => Bool.noConfusion ((prefOf_false_of_take_ne "#/components/schemas/".data
      "#/components/responses/".data 14 (by decide) (by decide) (by decide) rest).symm.trans hc)
  have hn2 : ¬(strStartsWith ⟨"#/components/responses/".data ++ rest⟩
      "#/components/parameters/" = true) :=
    fun hc => Bool.noConfusion ((prefOf_false_of_take_ne "#/components/parameters/".data
      "#/components/responses/".data 14 (by decide) (by decide) (by decide) rest).symm.trans hc)
  have hc : strStartsWith ⟨"#/components/responses/".data ++ rest⟩
      "#/components/responses/" = true := prefOf_append_self _ _
  simp only [convert_ref]
  rw [if_neg hn1, if_neg hn2, if_pos hc]
  exact strReplace_leading _ _ rest (by decide) hseg

theorem convert_ref_requestBodies (rest : List Char)
    (hseg : hasSeg "#/components/requestBodies/".data rest = false) :
    convert_ref ⟨"#/components/requestBodies/".data ++ rest⟩
      = ⟨"#/x-requestBodies/".data ++ rest⟩ := by
  have hn1 : ¬(strStartsWith ⟨"#/components/requestBodies/".data ++ rest⟩
      "#/components/schemas/" = true) :=
    fun hc => Bool.noConfusion ((prefOf_false_of_take_ne "#/components/schemas/".data
      "#/components/requestBodies/".data 14 (by decide) (by decide) (by decide) rest).symm.trans hc)
  have hn2 : ¬(strStartsWith ⟨"#/components/requestBodies/".data ++ rest⟩
      "#/components/parameters/" = true) :=
    fun hc => Bool.noConfusion ((prefOf_false_of_take_ne "#/components/parameters/".data
      "#/components/requestBodies/".data 14 (by decide) (by decide) (by decide) rest).symm.trans hc)
  have hn3 : ¬(strStartsWith ⟨"#/components/requestBodies/".data ++ rest⟩
      "#/components/responses/" = true) :=
    fun hc => Bool.noConfusion ((prefOf_false_of_take_ne "#/components/responses/".data
      "#/components/requestBodies/".data 16 (by decide) (by decide) (by decide) rest).symm.trans hc)
  have hc : strStartsWith ⟨"#/components/requestBodies/".data ++ rest⟩
      "#/components/requestBodies/" = true := prefOf_append_self _ _
  simp only [convert_ref]
  rw [if_neg hn1, if_neg hn2, if_neg hn3, if_pos hc]
  exact strReplace_leading _ _ rest (by decide) hseg

theorem convert_ref_securitySchemes (rest : List Char)
    (hseg : hasSeg "#/components/securitySchemes/".data rest = false) :
    convert_ref ⟨"#/components/securitySchemes/".data ++ rest⟩
      = ⟨"#/securityDefinitions/".data ++ rest⟩ := by
  have hn1 : ¬(strStartsWith ⟨"#/components/securitySchemes/".data ++ rest⟩
      "#/components/schemas/" = true) :=
    fun hc => Bool.noConfusion ((prefOf_false_of_take_ne "#/components/schemas/".data
      "#/components/securitySchemes/".data 15 (by decide) (by decide) (by decide) rest).symm.trans hc)
  have hn2 : ¬(strStartsWith ⟨"#/components/securitySchemes/".data ++ rest⟩
      "#/components/parameters/" = true) :=
    fun hc => Bool.noConfusion ((prefOf_false_of_take_ne "#/components/parameters/".data
      "#/components/securitySchemes/".data 14 (by decide) (by decide) (by decide) rest).symm.trans hc)
  have hn3 : ¬(strStartsWith ⟨"#/components/securitySchemes/".data ++ rest⟩
      "#/components/responses/" = true) :=
    fun hc => Bool.noConfusion ((prefOf_false_of_take_ne "#/components/responses/".data
      "#/components/securitySchemes/".data 14 (by decide) (by decide) (by decide) rest).symm.trans hc)
  have hn4 : ¬(strStartsWith ⟨"#/components/securitySchemes/".data ++ rest⟩
      "#/components/requestBodies/" = true) :=
    fun hc => Bool.noConfusion ((prefOf_false_of_take_ne "#/components/requestBodies/".data
      "#/components/securitySchemes/".data 14 (by decide) (by decide) (by decide) rest).symm.trans hc)
  have hc : strStartsWith ⟨"#/components/securitySchemes/".data ++ rest⟩
      "#/components/securitySchemes/" = true := prefOf_append_self _ _
  simp only [convert_ref]
  rw [if_neg hn1, if_neg hn2, if_neg hn3, if_neg hn4, if_pos hc]
  exact strReplace_leading _ _ rest (by decide) hseg

theorem convert_ref_unrecognized (ref : String)
    (h1 : strStartsWith ref "#/components/schemas/" = false)
    (h2 : strStartsWith ref "#/components/parameters/" = false)
    (h3 : strStartsWith ref "#/components/responses/" = false)
    (h4 : strStartsWith ref "#/components/requestBodies/" = false)
    (h5 : strStartsWith ref "#/components/securitySchemes/" = false) :
    convert_ref ref = ref := by
  simp only [convert_ref, h1, h2, h3, h4, h5, Bool.false_eq_true, if_false]

/-- C3 (amended): for every reference string that starts with one of the
five recognized container forms, `convert_ref` maps the leading container
segment through the fixed table and — because Python's `str.replace`
replaces every occurrence — provided the remainder contains no further
occurrence of the matched form, leaves the remainder unchanged (in general,
every occurrence in the remainder is also replaced); every string starting
with none of the five forms is returned exactly unchanged. -/
theorem convert_ref_rewrites_table :
    (∀ rest : List Char, hasSeg "#/components/schemas/".data rest = false →
      convert_ref ⟨"#/components/schemas/".data ++ rest⟩ = ⟨"#/definitions/".data ++ rest⟩)
    ∧ (∀ rest : List Char, hasSeg "#/components/parameters/".data rest = false →
      convert_ref ⟨"#/components/parameters/".data ++ rest⟩ = ⟨"#/parameters/".data ++ rest⟩)
    ∧ (∀ rest : List Char, hasSeg "#/components/responses/".data rest = false →
      convert_ref ⟨"#/components/responses/".data ++ rest⟩ = ⟨"#/responses/".data ++ rest⟩)
    ∧ (∀ rest : List Char, hasSeg "#/components/requestBodies/".data rest = false →
      convert_ref ⟨"#/components/requestBodies/".data ++ rest⟩
        = ⟨"#/x-requestBodies/".data ++ rest⟩)
    ∧ (∀ rest : List Char, hasSeg "#/components/securitySchemes/".data rest = false →
      convert_ref ⟨"#/components/securitySchemes/".data ++ rest⟩
        = ⟨"#/securityDefinitions/".data ++ rest⟩)
    ∧ (∀ ref : String, strStartsWith ref "#/components/schemas/" = false →
      strStartsWith ref "#/components/parameters/" = false →
      strStartsWith ref "#/components/responses/" = false →
      strStartsWith ref "#/components/requestBodies/" = false →
      strStartsWith ref "#/components/securitySchemes/" = false →
      convert_ref ref = ref) :=
  ⟨convert_ref_schemas, convert_ref_parameters, convert_ref_responses,
    convert_ref_requestBodies, convert_ref_securitySchemes, convert_ref_unrecognized⟩

/-- C3 counterexample: when the recognized form occurs again in the
remainder, Python's `str.replace` rewrites that occurrence too, so the rest
of the string is not left unchanged as the claim states. -/
theorem convert_ref_replaces_every_occurrence :
    strStartsWith "#/components/schemas/a#/components/schemas/b"
      "#/components/schemas/" = true
    ∧ convert_ref "#/components/schemas/a#/components/schemas/b"
        = "#/definitions/a#/definitions/b"
    ∧ convert_ref "#/components/schemas/a#/components/schemas/b"
        ≠ ⟨"#/definitions/".data
            ++ ("#/components/schemas/a#/components/schemas/b".data.drop
                "#/components/schemas/".data.length)⟩ :=
  ⟨rfl, rfl, by decide⟩

/-- C3 witness: a table rewrite on a simple remainder and an unrecognized
reference passing through unchanged. -/
theorem convert_ref_rewrites_table_witness :
    convert_ref "#/components/schemas/Widget" = "#/definitions/Widget"
    ∧ convert_ref "#/other" = "#/other" := by
  constructor
  · exact convert_ref_rewrites_table.1 "Widget".data (by decide)
  · exact convert_ref_rewrites_table.2.2.2.2.2 "#/other" rfl rfl rfl rfl rfl

theorem Yaml.size_pos (y : Yaml) : 1 ≤ y.size := by
  cases y <;> simp [Yaml.size]

theorem noBannedDict_insert (d : YamlDict) (k : String) (v : Yaml)
    (hk : bannedKeys.contains k = false) (hv : noBanned v = true)
    (hd : noBannedDict d = true) : noBannedDict (d.insert k v) = true := by
  induction d using dictInductionOn with
  | nil =>
    show (!bannedKeys.contains k && noBanned v && noBannedDict .nil) = true
    rw [hk, hv]
    rfl
  | cons k0 v0 rest ih =>
    simp only [noBannedDict, Bool.and_eq_true] at hd
    by_cases h0 : k0 = k
    · subst h0
      rw [show (YamlDict.cons k0 v0 rest).insert k0 v = .cons k0 v rest from by
        simp [YamlDict.insert]]
      show (!bannedKeys.contains k0 && noBanned v && noBannedDict rest) = true
      rw [hk, hv, hd.2]
      rfl
    · rw [show (YamlDict.cons k0 v0 rest).insert k v = .cons k0 v0 (rest.insert k v) from by
        simp [YamlDict.insert, h0]]
      show (!bannedKeys.contains k0 && noBanned v0 && noBannedDict (rest.insert k v)) = true
      rw [hd.1.2, ih hd.2, hd.1.1]
      rfl

theorem bannedKeys_contains_false {k : String}
    (h1 : k ≠ "nullable") (h2 : k ≠ "deprecated") (h3 : k ≠ "discriminator")
    (h4 : k ≠ "allOf") (h5 : k ≠ "anyOf") (h6 : k ≠ "oneOf") (h7 : k ≠ "not") :
    bannedKeys.contains k = false := by
  simp [bannedKeys, List.contains, h1, h2, h3, h4, h5, h6, h7]

theorem schemaSafeDict_cons (k : String) (v : Yaml) (rest : YamlDict) :
    schemaSafeDict (.cons k v rest) = (schemaSafeEntry k v && schemaSafeDict rest) := by
  cases v <;> simp only [schemaSafeDict, schemaSafeEntry]

theorem noBannedDict_step (acc : YamlDict) (k : String) (v : Yaml)
    (hacc : noBannedDict acc = true) (hsafe : schemaSafeEntry k v = true)
    (hrec : schemaSafe v = true → noBanned (convert_schema v) = true)
    (hrecp : ∀ props : YamlDict, v = .obj props → propsSafe props = true →
      noBannedDict (convert_props .nil props) = true) :
    noBannedDict (convert_schema_step acc k v) = true := by
  simp only [convert_schema_step]
  by_cases c1 : k = "$ref"
  · rw [if_pos c1]
    subst c1
    apply noBannedDict_insert _ _ _ (by decide) ?_ hacc
    have hs : v.isString = true := by simpa [schemaSafeEntry] using hsafe
    cases v <;> simp [Yaml.isString] at hs
    rfl
  rw [if_neg c1]
  by_cases c2 : k = "nullable"
  · rw [if_pos c2]
    by_cases ct : truthy v = true
    · rw [if_pos ct]
      exact noBannedDict_insert _ _ _ (by decide) rfl hacc
    · rw [if_neg ct]
      exact hacc
  rw [if_neg c2]
  by_cases c3 : k = "deprecated"
  · rw [if_pos c3]
    subst c3
    have hnb : noBanned v = true := by simpa [schemaSafeEntry] using hsafe
    exact noBannedDict_insert _ _ _ (by decide) hnb hacc
  rw [if_neg c3]
  by_cases c4 : k = "discriminator"
  · rw [if_pos c4]
    subst c4
    have hnb : noBanned v = true := by simpa [schemaSafeEntry] using hsafe
    exact noBannedDict_insert _ _ _ (by decide) hnb hacc
  rw [if_neg c4]
  by_cases c5 : k = "example"
  · rw [if_pos c5]
    subst c5
    have hnb : noBanned v = true := by simpa [schemaSafeEntry] using hsafe
    exact noBannedDict_insert _ _ _ (by decide) hnb hacc
  rw [if_neg c5]
  by_cases c6 : k = "examples"
  · rw [if_pos c6]
    subst c6
    have hnb : noBanned v = true := by simpa [schemaSafeEntry] using hsafe
    exact noBannedDict_insert _ _ _ (by decide) hnb hacc
  rw [if_neg c6]
  by_cases c7 : k = "allOf" ∨ k = "anyOf" ∨ k = "oneOf" ∨ k = "not"
  · rw [if_pos c7]
    rcases c7 with h | h | h | h <;> subst h <;>
      exact noBannedDict_insert _ _ _ (by decide)
        (hrec (by simpa [schemaSafeEntry] using hsafe)) hacc
  rw [if_neg c7]
  by_cases c8 : k = "items" ∨ k = "additionalProperties"
  · rw [if_pos c8]
    rcases c8 with h | h <;> subst h <;>
      exact noBannedDict_insert _ _ _ (by decide)
        (hrec (by simpa [schemaSafeEntry] using hsafe)) hacc
  rw [if_neg c8]
  by_cases c9 : k = "properties" ∨ k = "patternProperties"
  · rw [if_pos c9]
    rcases c9 with h | h <;> subst h <;>
      (cases v with
       | obj props =>
         refine noBannedDict_insert _ _ _ (by decide) ?_ hacc
         exact hrecp _ rfl (by simpa [schemaSafeEntry] using hsafe)
       | null => exact absurd hsafe (by simp [schemaSafeEntry])
       | bool b => exact absurd hsafe (by simp [schemaSafeEntry])
       | num n => exact absurd hsafe (by simp [schemaSafeEntry])
       | str s => exact absurd hsafe (by simp [schemaSafeEntry])
       | arr l => exact absurd hsafe (by simp [schemaSafeEntry]))
  rw [if_neg c9]
  by_cases c10 : k = "xml"
  · rw [if_pos c10]
    subst c10
    have hnb : noBanned v = true := by simpa [schemaSafeEntry] using hsafe
    exact noBannedDict_insert _ _ _ (by decide) hnb hacc
  rw [if_neg c10]
  have hk : bannedKeys.contains k = false := by
    apply bannedKeys_contains_false c2 c3 c4
    · intro he; exact c7 (Or.inl he)
    · intro he; exact c7 (Or.inr (Or.inl he))
    · intro he; exact c7 (Or.inr (Or.inr (Or.inl he)))
    · intro he; exact c7 (Or.inr (Or.inr (Or.inr he)))
  have hmeta : ¬(k = "deprecated" ∨ k = "discriminator" ∨ k = "example" ∨ k = "examples"
      ∨ k = "xml") := by
    rintro (h | h | h | h | h)
    · exact c3 h
    · exact c4 h
    · exact c5 h
    · exact c6 h
    · exact c10 h
  have hsv : schemaSafe v = true := by
    simpa [schemaSafeEntry, if_neg c1, if_neg hmeta, if_neg c9] using hsafe
  exact noBannedDict_insert _ _ _ hk (hrec hsv) hacc

theorem noBanned_convert_bundle (n : Nat) :
    (∀ y : Yaml, y.size ≤ n → schemaSafe y = true → noBanned (convert_schema y) = true)
    ∧ (∀ l : YamlList, l.size ≤ n → schemaSafeList l = true →
        noBannedList (convert_schema_list l) = true)
    ∧ (∀ e : YamlDict, e.size ≤ n → schemaSafeDict e = true →
        ∀ acc, noBannedDict acc = true → noBannedDict (convert_schema_entries acc e) = true)
    ∧ (∀ p : YamlDict, p.size ≤ n → propsSafe p = true →
        ∀ acc, noBannedDict acc = true → noBannedDict (convert_props acc p) = true) := by
  induction n using Nat.strong_induction_on with
  | _ n ih =>
  refine ⟨?_, ?_, ?_, ?_⟩
  · intro y hsz hsafe
    cases y with
    | arr l =>
      have hlt : l.size < n := by simp [Yaml.size] at hsz; omega
      show noBannedList (convert_schema_list l) = true
      exact (ih l.size hlt).2.1 l le_rfl (by simpa [schemaSafe] using hsafe)
    | obj d =>
      have hlt : d.size < n := by simp [Yaml.size] at hsz; omega
      show noBannedDict (convert_schema_entries .nil d) = true
      exact (ih d.size hlt).2.2.1 d le_rfl (by simpa [schemaSafe] using hsafe) .nil rfl
    | null => rfl
    | bool b => rfl
    | num m => rfl
    | str s => rfl
  · intro l hsz hsafe
    cases l with
    | nil => rfl
    | cons y rest =>
      have hy : y.size < n := by simp [YamlList.size] at hsz; omega
      have hr : rest.size < n := by
        simp [YamlList.size] at hsz
        have := Yaml.size_pos y
        omega
      have h' : (schemaSafe y && schemaSafeList rest) = true := by
        simpa [schemaSafeList] using hsafe
      rw [Bool.and_eq_true] at h'
      show (noBanned (convert_schema y) && noBannedList (convert_schema_list rest)) = true
      rw [(ih y.size hy).1 y le_rfl h'.1, (ih rest.size hr).2.1 rest le_rfl h'.2]
      rfl
  · intro e hsz hsafe acc hacc
    cases e with
    | nil => exact hacc
    | cons k v rest =>
      have hv : v.size < n := by simp [YamlDict.size] at hsz; omega
      have hr : rest.size < n := by
        simp [YamlDict.size] at hsz
        have := Yaml.size_pos v
        omega
      rw [convert_schema_entries_cons]
      rw [schemaSafeDict_cons, Bool.and_eq_true] at hsafe
      refine (ih rest.size hr).2.2.1 rest le_rfl hsafe.2 _ ?_
      refine noBannedDict_step acc k v hacc hsafe.1 ?_ ?_
      · intro hs
        exact (ih v.size hv).1 v le_rfl hs
      · intro props hpv hp
        subst hpv
        have hps : props.size < n := by
          simp [Yaml.size] at hv
          omega
        exact (ih props.size hps).2.2.2 props le_rfl hp .nil rfl
  · intro p hsz hsafe acc hacc
    cases p with
    | nil => exact hacc
    | cons name sch rest =>
      have hs : sch.size < n := by simp [YamlDict.size] at hsz; omega
      have hr : rest.size < n := by
        simp [YamlDict.size] at hsz
        have := Yaml.size_pos sch
        omega
      have h' : (!(bannedKeys.contains name) && schemaSafe sch && propsSafe rest) = true := by
        simpa [propsSafe] using hsafe
      rw [Bool.and_eq_true, Bool.and_eq_true] at h'
      show noBannedDict (convert_props (acc.insert name (convert_schema sch)) rest) = true
      apply (ih rest.size hr).2.2.2 rest le_rfl h'.2
      exact noBannedDict_insert _ _ _ (by simpa using h'.1.1)
        ((ih sch.size hs).1 sch le_rfl h'.1.2) hacc

/-- C1 (amended): for every schema value whose verbatim-copied parts are
clean — hereditarily through the recursively transformed positions, every
`$ref` value is a string, the values of `deprecated`, `discriminator`,
`example`, `examples` and `xml` contain no `nullable`/`deprecated`/
`discriminator`/`allOf`/`anyOf`/`oneOf`/`not` mapping key anywhere, the
`properties`/`patternProperties` values are mappings, and no property name
is itself one of those words — the output of `convert_schema` contains no
such key at any nesting depth: every such key of the input has been renamed
to its `x-`-prefixed form, or dropped in the case of falsy `nullable`.
(Without the cleanliness condition, verbatim-copied metadata values and
property names can carry banned keys into the output.) -/
theorem convert_schema_no_banned_keys (y : Yaml) (h : schemaSafe y = true) :
    noBanned (convert_schema y) = true :=
  (noBanned_convert_bundle y.size).1 y le_rfl h

/-- C1 counterexample: an `example` metadata value is copied verbatim, so a
`nullable` mapping key inside it survives the transformation at nesting
depth one, contradicting the claim that no such key remains at any depth. -/
theorem convert_schema_banned_key_survives :
    convert_schema (.obj (.cons "example" (.obj (.cons "nullable" (.bool true) .nil)) .nil))
      = .obj (.cons "example" (.obj (.cons "nullable" (.bool true) .nil)) .nil)
    ∧ noBanned (convert_schema (.obj (.cons "example"
        (.obj (.cons "nullable" (.bool true) .nil)) .nil))) = false :=
  ⟨rfl, rfl⟩

/-- C1 witness: a safe schema with a truthy `nullable`, a composition
keyword and a nested `deprecated`, transformed to a banned-key-free
output. -/
theorem convert_schema_no_banned_keys_witness :
    schemaSafe (.obj (.cons "nullable" (.bool true)
      (.cons "allOf" (.arr (.cons (.obj (.cons "deprecated" (.bool true) .nil)) .nil))
        .nil))) = true
    ∧ noBanned (convert_schema (.obj (.cons "nullable" (.bool true)
        (.cons "allOf" (.arr (.cons (.obj (.cons "deprecated" (.bool true) .nil)) .nil))
          .nil)))) = true :=
  ⟨rfl, convert_schema_no_banned_keys _ rfl⟩

theorem charEqOfToNat {a b : Char} (h : a.toNat = b.toNat) : a = b := by
  have h2 := Char.ofNat_toNat a
  rw [h, Char.ofNat_toNat] at h2
  exact h2.symm

theorem lexLe_total : ∀ a b : List Char, lexLe a b = true ∨ lexLe b a = true
  | [], _ => Or.inl rfl
  | _ :: _, [] => Or.inr rfl
  | a :: s, b :: t => by
    by_cases h1 : a.toNat < b.toNat
    · left
      simp only [lexLe]
      rw [if_pos h1]
    · by_cases h2 : a.toNat = b.toNat
      · rcases lexLe_total s t with h | h
        · left
          simp only [lexLe]
          rw [if_neg h1, if_pos h2]
          exact h
        · right
          simp only [lexLe]
          rw [if_neg (by omega : ¬b.toNat < a.toNat), if_pos h2.symm]
          exact h
      · right
        simp only [lexLe]
        rw [if_pos (by omega : b.toNat < a.toNat)]

theorem lexLe_trans : ∀ a b c : List Char, lexLe a b = true → lexLe b c = true →
    lexLe a c = true
  | [], _, _, _, _ => rfl
  | _ :: _, [], _, h1, _ => by simp [lexLe] at h1
  | _ :: _, _ :: _, [], _, h2 => by simp [lexLe] at h2
  | a :: s, b :: t, c :: u, h1, h2 => by
    simp only [lexLe] at h1 h2 ⊢
    by_cases e1 : a.toNat < b.toNat
    · by_cases e2 : b.toNat < c.toNat
      · rw [if_pos (by omega : a.toNat < c.toNat)]
      · by_cases e3 : b.toNat = c.toNat
        · rw [if_pos (by omega : a.toNat < c.toNat)]
        · rw [if_neg e2, if_neg e3] at h2
          exact absurd h2 (by simp)
    · by_cases e4 : a.toNat = b.toNat
      · rw [if_neg e1, if_pos e4] at h1
        by_cases e2 : b.toNat < c.toNat
        · rw [if_pos (by omega : a.toNat < c.toNat)]
        · by_cases e3 : b.toNat = c.toNat
          · rw [if_pos e3] at h2
            rw [if_neg (by omega : ¬a.toNat < c.toNat), if_pos (by omega : a.toNat = c.toNat)]
            exact lexLe_trans s t u h1 (by rwa [if_neg e2] at h2)
          · rw [if_neg e2, if_neg e3] at h2
            exact absurd h2 (by simp)
      · rw [if_neg e1, if_neg e4] at h1
        exact absurd h1 (by simp)

theorem lexLe_antisymm : ∀ a b : List Char, lexLe a b = true → lexLe b a = true → a = b
  | [], [], _, _ => rfl
  | [], _ :: _, _, h2 => by simp [lexLe] at h2
  | _ :: _, [], h1, _ => by simp [lexLe] at h1
  | a :: s, b :: t, h1, h2 => by
    by_cases e1 : a.toNat < b.toNat
    · simp only [lexLe] at h2
      rw [if_neg (by omega : ¬b.toNat < a.toNat), if_neg (by omega : ¬b.toNat = a.toNat)] at h2
      exact absurd h2 (by simp)
    · by_cases e2 : a.toNat = b.toNat
      · simp only [lexLe] at h1 h2
        rw [if_neg e1, if_pos e2] at h1
        rw [if_neg (by omega : ¬b.toNat < a.toNat), if_pos e2.symm] at h2
        rw [charEqOfToNat e2, lexLe_antisymm s t h1 h2]
      · simp only [lexLe] at h1
        rw [if_neg e1, if_neg e2] at h1
        exact absurd h1 (by simp)

instance : IsTotal String strLeProp := ⟨fun a b => lexLe_total a.data b.data⟩

instance : IsTrans String strLeProp :=
  ⟨fun a b c h1 h2 => lexLe_trans a.data b.data c.data h1 h2⟩

instance : IsAntisymm String strLeProp :=
  ⟨fun a b h1 h2 => String.ext (lexLe_antisymm a.data b.data h1 h2)⟩

theorem mem_pyDedupAux (l : List String) :
    ∀ (seen : List String) (x : String),
      x ∈ pyDedupAux seen l ↔ x ∈ l ∧ seen.contains x = false := by
  induction l with
  | nil => simp [pyDedupAux]
  | cons a t ih =>
    intro seen x
    simp only [pyDedupAux]
    by_cases hc : seen.contains a = true
    · rw [if_pos hc, ih]
      simp only [List.mem_cons]
      constructor
      · rintro ⟨hm, hs⟩
        exact ⟨Or.inr hm, hs⟩
      · rintro ⟨hm | hm, hs⟩
        · subst hm
          rw [hc] at hs
          cases hs
        · exact ⟨hm, hs⟩
    · rw [if_neg hc]
      simp only [List.mem_cons, ih, List.contains_cons, Bool.or_eq_false_iff,
        beq_eq_false_iff_ne, ne_eq]
      constructor
      · rintro (he | ⟨hm, hxa, hs⟩)
        · subst he
          exact ⟨Or.inl rfl, by simpa using hc⟩
        · exact ⟨Or.inr hm, hs⟩
      · rintro ⟨he | hm, hs⟩
        · exact Or.inl he
        · by_cases hxa : x = a
          · exact Or.inl hxa
          · exact Or.inr ⟨hm, hxa, hs⟩

theorem nodup_pyDedupAux (l : List String) : ∀ seen, (pyDedupAux seen l).Nodup := by
  induction l with
  | nil => intro seen; simp [pyDedupAux]
  | cons a t ih =>
    intro seen
    simp only [pyDedupAux]
    by_cases hc : seen.contains a = true
    · rw [if_pos hc]; exact ih seen
    · rw [if_neg hc]
      refine List.nodup_cons.mpr ⟨?_, ih _⟩
      rw [mem_pyDedupAux]
      rintro ⟨_, hs⟩
      simp [List.contains_cons] at hs

theorem mem_pyDedup (l : List String) (x : String) : x ∈ pyDedup l ↔ x ∈ l := by
  simp [pyDedup, mem_pyDedupAux]

theorem nodup_pyDedup (l : List String) : (pyDedup l).Nodup := nodup_pyDedupAux l []

theorem sortedUnique_sorted (l : List String) : (sortedUnique l).Sorted strLeProp :=
  List.sorted_insertionSort strLeProp (pyDedup l)

theorem sortedUnique_nodup (l : List String) : (sortedUnique l).Nodup :=
  (List.Perm.nodup_iff (List.perm_insertionSort strLeProp (pyDedup l))).mpr (nodup_pyDedup l)

theorem sortedUnique_perm_invariant (l l' : List String) (h : l.Perm l') :
    sortedUnique l = sortedUnique l' := by
  apply List.eq_of_perm_of_sorted ?_ (sortedUnique_sorted l) (sortedUnique_sorted l')
  have h1 : (pyDedup l).Perm (pyDedup l') := by
    rw [List.perm_ext_iff_of_nodup (nodup_pyDedup l) (nodup_pyDedup l')]
    intro a
    rw [mem_pyDedup, mem_pyDedup]
    exact h.mem_iff
  exact (List.perm_insertionSort _ _).trans (h1.trans (List.perm_insertionSort _ _).symm)

/-- C5: a converted operation contains a `consumes` (respectively
`produces`) key exactly when the accumulated consumed (produced) media-type
list is non-empty; when present the emitted list is `sortedUnique` of the
accumulated list, which is always lexicographically sorted and free of
duplicates; and `sortedUnique` is invariant under permutation of its input,
so the emitted lists do not depend on the order media types were declared. -/
theorem operation_consumes_produces_sorted (op : YamlDict) :
    ((convert_operation op).1.lookup "consumes" =
      match (convert_operation op).2.1 with
      | [] => none
      | l => some (.arr (ofStrings (sortedUnique l))))
    ∧ ((convert_operation op).1.lookup "produces" =
      match (convert_operation op).2.2 with
      | [] => none
      | l => some (.arr (ofStrings (sortedUnique l))))
    ∧ (∀ l : List String, (sortedUnique l).Sorted strLeProp ∧ (sortedUnique l).Nodup)
    ∧ (∀ l l' : List String, l.Perm l' → sortedUnique l = sortedUnique l') :=
  ⟨convert_operation_lookup_consumes op, convert_operation_lookup_produces op,
    fun l => ⟨sortedUnique_sorted l, sortedUnique_nodup l⟩, sortedUnique_perm_invariant⟩

/-- C5 witness: a concrete operation with one consumed media type carries a
`consumes` key with that single media type, and `sortedUnique` coincides on
two concrete permutations of the same media-type list. -/
theorem operation_consumes_produces_sorted_witness :
    (convert_operation (.cons "requestBody"
        (.obj (.cons "content" (.obj (.cons "text/csv" (.obj .nil) .nil)) .nil))
        (.cons "responses" (.obj .nil) .nil))).1.lookup "consumes"
      = some (.arr (.cons (.str "text/csv") .nil))
    ∧ sortedUnique ["b", "a", "c"] = sortedUnique ["a", "c", "b"] := by
  constructor
  · rw [(operation_consumes_produces_sorted (.cons "requestBody"
      (.obj (.cons "content" (.obj (.cons "text/csv" (.obj .nil) .nil)) .nil))
      (.cons "responses" (.obj .nil) .nil))).1]
    rfl
  · exact (operation_consumes_produces_sorted .nil).2.2.2 ["b", "a", "c"] ["a", "c", "b"]
      (by decide)

theorem lookup_response_example_single (nr : YamlDict) (mt : String) (o : Option Yaml)
    (k : String) (h : "examples" ≠ k) :
    (response_example_single nr mt o).lookup k = nr.lookup k := by
  cases o with
  | none => rfl
  | some v => cases v <;> first | rfl | exact lookup_insert_ne _ _ _ _ h

theorem lookup_response_examples_collapse (nr : YamlDict) (mt : String) (o : Option Yaml)
    (k : String) (h : "examples" ≠ k) :
    (response_examples_collapse nr mt o).lookup k = nr.lookup k := by
  cases o with
  | none => rfl
  | some v => cases v <;> first | rfl | exact lookup_insert_ne _ _ _ _ h

theorem convert_response_pdf (response : YamlDict) (media_obj : Yaml) (restContent : YamlDict)
    (hc : response.lookup "content" = some (.obj (.cons "application/pdf" media_obj restContent))) :
    (convert_response response).1.lookup "schema" = some (.obj (.cons "type" (.str "file") .nil))
    ∧ (convert_response response).2 = ["application/pdf"] := by
  constructor
  · simp only [convert_response, hc, Option.getD]
    rw [copyExtensions_lookup_not_x _ _ _ (by rfl)]
    rw [lookup_response_examples_collapse _ _ _ _ (by decide)]
    rw [lookup_response_example_single _ _ _ _ (by decide)]
    rw [if_true]
    exact lookup_insert_self _ _ _
  · simp only [convert_response, hc, Option.getD]

theorem convert_responses_aux_lookup_absent (rs : YamlDict) (status : String)
    (h : rs.hasKey status = false) :
    ∀ acc prod, (convert_responses_aux acc prod rs).1.lookup status = acc.lookup status := by
  induction rs using dictInductionOn with
  | nil => intro acc prod; rfl
  | cons st r rest ih =>
    intro acc prod
    simp only [YamlDict.hasKey, Bool.or_eq_false_iff] at h
    have hne : st ≠ status := by
      intro he
      rw [he] at h
      simp at h
    simp only [convert_responses_aux]
    rw [ih h.2, lookup_insert_ne _ _ _ _ hne]

theorem convert_responses_lookup (rs : YamlDict) (status : String) (resp : Yaml)
    (hnd : keysNodup rs) (hl : rs.lookup status = some resp) :
    (convert_responses rs).1.lookup status = some (.obj (convert_response resp.asObj).1) := by
  have haux : ∀ acc prod, (convert_responses_aux acc prod rs).1.lookup status
      = some (.obj (convert_response resp.asObj).1) := by
    induction rs using dictInductionOn with
    | nil => simp [YamlDict.lookup] at hl
    | cons st r rest ih =>
      intro acc prod
      rw [keysNodup_cons_iff] at hnd
      by_cases h0 : st = status
      · subst h0
        simp [YamlDict.lookup] at hl
        subst hl
        simp only [convert_responses_aux]
        rw [convert_responses_aux_lookup_absent rest st hnd.1, lookup_insert_self]
      · simp only [YamlDict.lookup, if_neg h0] at hl
        simp only [convert_responses_aux]
        exact ih hnd.2 hl _ _
  exact haux .nil []

theorem convert_responses_aux_produces_acc (rs : YamlDict) :
    ∀ acc acc' prod, (convert_responses_aux acc prod rs).2
      = (convert_responses_aux acc' prod rs).2 := by
  induction rs using dictInductionOn with
  | nil => intro acc acc' prod; rfl
  | cons st r rest ih =>
    intro acc acc' prod
    simp only [convert_responses_aux]
    exact ih _ _ _

theorem convert_responses_aux_produces (rs : YamlDict) :
    ∀ acc prod, (convert_responses_aux acc prod rs).2
      = prod ++ (convert_responses_aux acc [] rs).2 := by
  induction rs using dictInductionOn with
  | nil => intro acc prod; simp [convert_responses_aux]
  | cons st r rest ih =>
    intro acc prod
    simp only [convert_responses_aux]
    rw [ih _ (prod ++ (convert_response r.asObj).2), ih _ ([] ++ (convert_response r.asObj).2)]
    simp

theorem convert_responses_produces_mem (rs : YamlDict) (status : String) (resp : Yaml)
    (hl : rs.lookup status = some resp) :
    ∀ x ∈ (convert_response resp.asObj).2, x ∈ (convert_responses rs).2 := by
  induction rs using dictInductionOn with
  | nil => simp [YamlDict.lookup] at hl
  | cons st r rest ih =>
    intro x hx
    by_cases h0 : st = status
    · subst h0
      simp [YamlDict.lookup] at hl
      subst hl
      simp only [convert_responses, convert_responses_aux]
      rw [convert_responses_aux_produces]
      simp only [List.nil_append]
      exact List.mem_append_left _ hx
    · simp only [YamlDict.lookup, if_neg h0] at hl
      simp only [convert_responses, convert_responses_aux]
      rw [convert_responses_aux_produces]
      apply List.mem_append_right
      rw [convert_responses_aux_produces_acc _ _ .nil []]
      exact ih hl x hx

/-- C7: for every response whose first-declared content media type is
exactly `application/pdf`, the converted response carries
`schema: {type: "file"}` — whatever schema the media object itself declares
is discarded (the media object is arbitrary here) — while
`application/pdf` is still appended to the operation's produced media
types. -/
theorem convert_responses_pdf_file_schema (responses : YamlDict) (status : String)
    (response : Yaml) (media_obj : Yaml) (restContent : YamlDict)
    (hnd : keysNodup responses)
    (hl : responses.lookup status = some response)
    (hc : response.asObj.lookup "content"
      = some (.obj (.cons "application/pdf" media_obj restContent))) :
    (∃ nr : YamlDict, (convert_responses responses).1.lookup status = some (.obj nr)
      ∧ nr.lookup "schema" = some (.obj (.cons "type" (.str "file") .nil)))
    ∧ "application/pdf" ∈ (convert_responses responses).2 := by
  have hp := convert_response_pdf response.asObj media_obj restContent hc
  constructor
  · exact ⟨(convert_response response.asObj).1,
      convert_responses_lookup responses status response hnd hl, hp.1⟩
  · apply convert_responses_produces_mem responses status response hl
    rw [hp.2]
    simp

/-- C7 witness: a concrete `200` response with a PDF media type and a
declared source schema, whose converted form carries the file schema. -/
theorem convert_responses_pdf_file_schema_witness :
    (∃ nr : YamlDict, (convert_responses (.cons "200" (.obj (.cons "description" (.str "ok")
        (.cons "content" (.obj (.cons "application/pdf"
          (.obj (.cons "schema" (.obj (.cons "type" (.str "string") .nil)) .nil)) .nil))
          .nil))) .nil)).1.lookup "200" = some (.obj nr)
      ∧ nr.lookup "schema" = some (.obj (.cons "type" (.str "file") .nil)))
    ∧ "application/pdf" ∈ (convert_responses (.cons "200" (.obj (.cons "description" (.str "ok")
        (.cons "content" (.obj (.cons "application/pdf"
          (.obj (.cons "schema" (.obj (.cons "type" (.str "string") .nil)) .nil)) .nil))
          .nil))) .nil)).2 :=
  convert_responses_pdf_file_schema _ "200" _ _ _ (by decide) rfl rfl

theorem xAgree_refl (d : YamlDict) : xAgree d d := by
  induction d using dictInductionOn with
  | nil => trivial
  | cons k v rest ih => exact ⟨rfl, fun _ => rfl, ih⟩

theorem xAgree_insert_present (d : YamlDict) (k : String) (v : Yaml)
    (hx : strStartsWith k "x-" = false) (hp : d.hasKey k = true) :
    xAgree d (d.insert k v) := by
  induction d using dictInductionOn with
  | nil => simp [YamlDict.hasKey] at hp
  | cons k0 v0 rest ih =>
    by_cases h0 : k0 = k
    · subst h0
      rw [show (YamlDict.cons k0 v0 rest).insert k0 v = .cons k0 v rest from by
        simp [YamlDict.insert]]
      exact ⟨rfl, fun hxx => absurd hxx (by simp [hx]), xAgree_refl rest⟩
    · rw [show (YamlDict.cons k0 v0 rest).insert k v = .cons k0 v0 (rest.insert k v) from by
        simp [YamlDict.insert, h0]]
      refine ⟨rfl, fun _ => rfl, ih ?_⟩
      simp only [YamlDict.hasKey] at hp
      simpa [h0] using hp

theorem documentExtensions_congr (d d' : YamlDict) (h : xAgree d d') :
    ∀ acc, documentExtensions acc d = documentExtensions acc d' := by
  induction d using dictInductionOn generalizing d' with
  | nil =>
    cases d' with
    | nil => intro acc; rfl
    | cons k' v' r' => exact h.elim
  | cons k v r ih =>
    cases d' with
    | nil => exact h.elim
    | cons k' v' r' =>
      obtain ⟨hk, hv, hr⟩ := h
      subst hk
      intro acc
      simp only [documentExtensions]
      by_cases hx : strStartsWith k "x-" = true
      · rw [if_pos hx, if_pos hx, hv hx]
        exact ih r' hr _
      · rw [if_neg hx, if_neg hx]
        exact ih r' hr _

theorem hasKey_insert_ne (d : YamlDict) (k' k : String) (v : Yaml) (h : k' ≠ k) :
    (d.insert k' v).hasKey k = d.hasKey k := by
  by_cases hm : k ∈ d.keys
  · rw [(mem_keys_iff_hasKey _ _).mp hm,
      (mem_keys_iff_hasKey _ _).mp ((mem_keys_insert d k' k v).mpr (Or.inl hm))]
  · have h1 : d.hasKey k = false := by
      cases hb : d.hasKey k
      · rfl
      · exact absurd ((mem_keys_iff_hasKey d k).mpr hb) hm
    have h2 : (d.insert k' v).hasKey k = false := by
      cases hb : (d.insert k' v).hasKey k
      · rfl
      · rcases (mem_keys_insert d k' k v).mp ((mem_keys_iff_hasKey _ _).mpr hb) with hc | hc
        · exact absurd hc hm
        · exact absurd hc.symm h
    rw [h1, h2]

theorem hasKey_condInsert_ne (c : Prop) [Decidable c] (d : YamlDict) (k' k : String)
    (v : Yaml) (h : k' ≠ k) :
    (if c then d.insert k' v else d).hasKey k = d.hasKey k := by
  by_cases hc : c
  · rw [if_pos hc]; exact hasKey_insert_ne d k' k v h
  · rw [if_neg hc]

theorem convert_components_hasKey_other (components : YamlDict) (k : String)
    (h1 : "definitions" ≠ k) (h2 : "parameters" ≠ k) (h3 : "responses" ≠ k)
    (h4 : "securityDefinitions" ≠ k) :
    (convert_components components).hasKey k = false := by
  simp only [convert_components]
  rw [hasKey_condInsert_ne _ _ _ _ _ h4, hasKey_condInsert_ne _ _ _ _ _ h3,
    hasKey_condInsert_ne _ _ _ _ _ h2, hasKey_condInsert_ne _ _ _ _ _ h1]
  rfl

theorem convert_first_server_invariance (spec : YamlDict) (s0 : Yaml) (rest : YamlList)
    (h : spec.lookup "servers" = some (.arr (.cons s0 rest))) :
    convert_openapi_to_swagger spec
      = convert_openapi_to_swagger (spec.insert "servers" (.arr (.cons s0 .nil))) := by
  have hk : spec.hasKey "servers" = true := by
    rw [hasKey_eq_isSome_lookup, h]; rfl
  have hagree := xAgree_insert_present spec "servers" (.arr (.cons s0 .nil)) (by decide) hk
  simp only [convert_openapi_to_swagger, h, lookup_insert_self,
    lookup_insert_ne spec "servers" "info" (.arr (.cons s0 .nil)) (by decide),
    lookup_insert_ne spec "servers" "tags" (.arr (.cons s0 .nil)) (by decide),
    lookup_insert_ne spec "servers" "externalDocs" (.arr (.cons s0 .nil)) (by decide),
    lookup_insert_ne spec "servers" "security" (.arr (.cons s0 .nil)) (by decide),
    lookup_insert_ne spec "servers" "components" (.arr (.cons s0 .nil)) (by decide),
    lookup_insert_ne spec "servers" "paths" (.arr (.cons s0 .nil)) (by decide)]
  exact documentExtensions_congr spec _ hagree _

theorem convert_swagger_host (spec : YamlDict) (s0 : Yaml) (rest : YamlList)
    (h : spec.lookup "servers" = some (.arr (.cons s0 rest))) :
    (convert_openapi_to_swagger spec).lookup "host"
      = if (parse_server s0.asObj).1 ≠ "" then some (.str (parse_server s0.asObj).1)
        else none := by
  simp only [convert_openapi_to_swagger, h]
  rw [documentExtensions_lookup_not_x _ _ _ (by decide),
    lookup_insert_ne _ "paths" "host" _ (by decide),
    dictUpdate_lookup_absent _ _ _
      (convert_components_hasKey_other _ "host" (by decide) (by decide) (by decide) (by decide)),
    lookup_condInsert_ne _ _ "security" "host" _ (by decide),
    lookup_condInsert_ne _ _ "externalDocs" "host" _ (by decide),
    lookup_condInsert_ne _ _ "tags" "host" _ (by decide)]
  cases hs : (parse_server (Yaml.asObj s0)).2.2 with
  | nil =>
    rw [lookup_condInsert_ne _ _ "basePath" "host" _ (by decide)]
    by_cases hh : (parse_server (Yaml.asObj s0)).1 ≠ ""
    · rw [if_pos hh, if_pos hh, lookup_insert_self]
    · rw [if_neg hh, if_neg hh]
      rfl
  | cons a as =>
    rw [lookup_insert_ne _ "schemes" "host" _ (by decide),
      lookup_condInsert_ne _ _ "basePath" "host" _ (by decide)]
    by_cases hh : (parse_server (Yaml.asObj s0)).1 ≠ ""
    · rw [if_pos hh, if_pos hh, lookup_insert_self]
    · rw [if_neg hh, if_neg hh]
      rfl

theorem convert_swagger_basePath (spec : YamlDict) (s0 : Yaml) (rest : YamlList)
    (h : spec.lookup "servers" = some (.arr (.cons s0 rest))) :
    (convert_openapi_to_swagger spec).lookup "basePath"
      = if (parse_server s0.asObj).2.1 ≠ "" ∧ (parse_server s0.asObj).2.1 ≠ "/"
        then some (.str (parse_server s0.asObj).2.1) else none := by
  simp only [convert_openapi_to_swagger, h]
  rw [documentExtensions_lookup_not_x _ _ _ (by decide),
    lookup_insert_ne _ "paths" "basePath" _ (by decide),
    dictUpdate_lookup_absent _ _ _
      (convert_components_hasKey_other _ "basePath" (by decide) (by decide) (by decide)
        (by decide)),
    lookup_condInsert_ne _ _ "security" "basePath" _ (by decide),
    lookup_condInsert_ne _ _ "externalDocs" "basePath" _ (by decide),
    lookup_condInsert_ne _ _ "tags" "basePath" _ (by decide)]
  cases hs : (parse_server (Yaml.asObj s0)).2.2 with
  | nil =>
    by_cases hbp : (parse_server (Yaml.asObj s0)).2.1 ≠ "" ∧ (parse_server (Yaml.asObj s0)).2.1 ≠ "/"
    · rw [if_pos hbp, if_pos hbp, lookup_insert_self]
    · rw [if_neg hbp, if_neg hbp,
        lookup_condInsert_ne _ _ "host" "basePath" _ (by decide)]
      rfl
  | cons a as =>
    rw [lookup_insert_ne _ "schemes" "basePath" _ (by decide)]
    by_cases hbp : (parse_server (Yaml.asObj s0)).2.1 ≠ "" ∧ (parse_server (Yaml.asObj s0)).2.1 ≠ "/"
    · rw [if_pos hbp, if_pos hbp, lookup_insert_self]
    · rw [if_neg hbp, if_neg hbp,
        lookup_condInsert_ne _ _ "host" "basePath" _ (by decide)]
      rfl

theorem convert_swagger_schemes (spec : YamlDict) (s0 : Yaml) (rest : YamlList)
    (h : spec.lookup "servers" = some (.arr (.cons s0 rest))) :
    (convert_openapi_to_swagger spec).lookup "schemes"
      = match (parse_server s0.asObj).2.2 with
        | [] => none
        | l => some (.arr (ofStrings l)) := by
  simp only [convert_openapi_to_swagger, h]
  rw [documentExtensions_lookup_not_x _ _ _ (by decide),
    lookup_insert_ne _ "paths" "schemes" _ (by decide),
    dictUpdate_lookup_absent _ _ _
      (convert_components_hasKey_other _ "schemes" (by decide) (by decide) (by decide)
        (by decide)),
    lookup_condInsert_ne _ _ "security" "schemes" _ (by decide),
    lookup_condInsert_ne _ _ "externalDocs" "schemes" _ (by decide),
    lookup_condInsert_ne _ _ "tags" "schemes" _ (by decide)]
  cases hs : (parse_server (Yaml.asObj s0)).2.2 with
  | nil =>
    rw [lookup_condInsert_ne _ _ "basePath" "schemes" _ (by decide),
      lookup_condInsert_ne _ _ "host" "schemes" _ (by decide)]
    rfl
  | cons a as =>
    rw [lookup_insert_self]

/-- C8: for every document whose `servers` list is non-empty, the conversion
depends only on the first server entry (replacing the list by its first
element alone yields the same output, so every subsequent entry is entirely
absent); the first entry alone determines the top-level `host` (present iff
the parsed netloc is non-empty), `basePath` (present iff the parsed path is
neither absent nor exactly "/") and `schemes` (present iff the parsed scheme
list is non-empty); and on the concrete document with servers
["https://api.example.com/v1", "https://backup.example.com/v1"] the output
has host "api.example.com", basePath "/v1" and schemes ["https"]. -/
theorem first_server_populates_host_base_schemes :
    (∀ (spec : YamlDict) (s0 : Yaml) (rest : YamlList),
        spec.lookup "servers" = some (.arr (.cons s0 rest)) →
        convert_openapi_to_swagger spec
          = convert_openapi_to_swagger (spec.insert "servers" (.arr (.cons s0 .nil))))
    ∧ (∀ (spec : YamlDict) (s0 : Yaml) (rest : YamlList),
        spec.lookup "servers" = some (.arr (.cons s0 rest)) →
        ((convert_openapi_to_swagger spec).lookup "host"
            = if (parse_server s0.asObj).1 ≠ "" then some (.str (parse_server s0.asObj).1)
              else none)
          ∧ ((convert_openapi_to_swagger spec).lookup "basePath"
            = if (parse_server s0.asObj).2.1 ≠ "" ∧ (parse_server s0.asObj).2.1 ≠ "/"
              then some (.str (parse_server s0.asObj).2.1) else none)
          ∧ ((convert_openapi_to_swagger spec).lookup "schemes"
            = match (parse_server s0.asObj).2.2 with
              | [] => none
              | l => some (.arr (ofStrings l))))
    ∧ (convert_openapi_to_swagger exampleTwoServerDoc).lookup "host"
        = some (.str "api.example.com")
    ∧ (convert_openapi_to_swagger exampleTwoServerDoc).lookup "basePath" = some (.str "/v1")
    ∧ (convert_openapi_to_swagger exampleTwoServerDoc).lookup "schemes"
        = some (.arr (.cons (.str "https") .nil)) :=
  ⟨convert_first_server_invariance,
   fun spec s0 rest h => ⟨convert_swagger_host spec s0 rest h,
     convert_swagger_basePath spec s0 rest h, convert_swagger_schemes spec s0 rest h⟩,
   by rfl, by rfl, by rfl⟩

theorem first_server_populates_host_base_schemes_witness :
    convert_openapi_to_swagger exampleTwoServerDoc
      = convert_openapi_to_swagger (exampleTwoServerDoc.insert "servers"
          (.arr (.cons (.obj (.cons "url" (.str "https://api.example.com/v1") .nil)) .nil))) :=
  first_server_populates_host_base_schemes.1 exampleTwoServerDoc
    (.obj (.cons "url" (.str "https://api.example.com/v1") .nil))
    (.cons (.obj (.cons "url" (.str "https://backup.example.com/v1") .nil)) .nil)
    (by rfl)
